import Mathlib

/-!
Verification development for the chess engine in `src/app.js`.

The engine state (`ChessEngine` in the source) is embedded as the structure
`Chess.Engine`; JavaScript in-place mutation becomes explicit state passing:
functions that mutate the engine return the new engine value, and functions
that mutate and restore (such as `generateLegalMoves`) are embedded as
functions that also return the final engine so that restoration is a provable
statement rather than an assumption.

Machine integers: the 64-bit Zobrist hashes are `Nat` values below `2 ^ 64`
(xor never leaves that range), and the mulberry32 generator is modeled over
`Nat` with explicit `% 2 ^ 32` where JavaScript coerces to 32-bit integers.
Board squares are `Nat` indices `0..63`; signed square offsets use `Int`.
-/

namespace Chess

/-- The two colors, source values "w" and "b". -/
inductive Color
  | w
  | b
deriving DecidableEq, Repr, Inhabited

/-- Piece kind, source lowercase letters p n b r q k. -/
inductive PKind
  | p
  | n
  | b
  | r
  | q
  | k
deriving DecidableEq, Repr, Inhabited

/-- A piece: the source stores a single character whose case is the color and
whose lowercase letter is the kind. -/
structure Piece where
  color : Color
  kind : PKind
deriving DecidableEq, Repr, Inhabited

/-- Source `opponent(color)`. -/
def opponent : Color → Color
  | .w => .b
  | .b => .w

/-- Source `fileOf(index)`: `index & 7`. -/
def fileOf (i : Nat) : Nat := i &&& 7

/-- Source `rankOf(index)`: `index >> 3`. -/
def rankOf (i : Nat) : Nat := i >>> 3

/-- `Math.abs(a - b)` for two natural numbers. -/
def adiff (a b : Nat) : Nat := ((a : Int) - (b : Int)).natAbs

/-- Source `clamp(n, a, b)`: `Math.max(a, Math.min(b, n))`. -/
def clamp (n a b : Int) : Int := max a (min b n)

/-- 2 ^ 32, the modulus of JavaScript 32-bit coercions. -/
def U32 : Nat := 4294967296

/-- One output of the source `mulberry32` generator given the current value of
its accumulator `t`.  JavaScript bitwise operators coerce to 32 bits, modeled
by `% U32`; `Math.imul` is multiplication mod `2 ^ 32`; the final
`(x >>> 0) / 2^32` together with `randU32`'s `* 0x100000000 >>> 0` returns the
32-bit word itself. -/
def mulberryOut (t : Nat) : Nat :=
  let x0 := t % U32
  let x1 := ((x0 ^^^ (x0 >>> 15)) * (x0 ||| 1)) % U32
  let x2 := x1 ^^^ ((x1 + ((x1 ^^^ (x1 >>> 7)) * (x1 ||| 61)) % U32) % U32)
  x2 ^^^ (x2 >>> 14)

/-- Seed of the engine's Zobrist generator, source `mulberry32(0xC0FFEE)`. -/
def mulberrySeed : Nat := 0xC0FFEE

/-- The k-th (0-based) 32-bit word drawn from the generator.  The source
accumulator `t` is a JavaScript number that grows without 32-bit wraparound
(`t += 0x6d2b79f5`), exactly representable for the call counts used here. -/
def randU32 (k : Nat) : Nat := mulberryOut (mulberrySeed + (k + 1) * 0x6d2b79f5)

/-- The j-th (0-based) 64-bit word, source `randU64`: high word first. -/
def randU64 (j : Nat) : Nat := (randU32 (2 * j) <<< 32) ^^^ randU32 (2 * j + 1)

/-- Source `pieceIndex(piece)`: 0..5 for white p n b r q k, 6..11 for black. -/
def pieceIndex (pc : Piece) : Nat :=
  (match pc.color with
    | .w => 0
    | .b => 6) +
  (match pc.kind with
    | .p => 0
    | .n => 1
    | .b => 2
    | .r => 3
    | .q => 4
    | .k => 5)

/-- Zobrist key for a piece index on a square: source `ZOBRIST.piece[idx][sq]`.
The table is generated row by row, so entry `(idx, sq)` is 64-bit word number
`idx * 64 + sq`. -/
def ZPiece (idx sq : Nat) : Nat := randU64 (idx * 64 + sq)

/-- Zobrist side-to-move key, 64-bit word number 768. -/
def ZSide : Nat := randU64 768

/-- Zobrist castling-mask keys, 64-bit words 769..784. -/
def ZCastle (mask : Nat) : Nat := randU64 (769 + mask)

/-- Zobrist en-passant-file keys, 64-bit words 785..792. -/
def ZEpFile (f : Nat) : Nat := randU64 (785 + f)

/-- The four castling rights, source `this.castling = {K, Q, k, q}`. -/
structure Castling where
  K : Bool
  Q : Bool
  k : Bool
  q : Bool
deriving DecidableEq, Repr, Inhabited

/-- Source `castleMaskFromRights(rights)`. -/
def castleMaskFromRights (c : Castling) : Nat :=
  (if c.K then 1 else 0) ||| (if c.Q then 2 else 0) |||
  (if c.k then 4 else 0) ||| (if c.q then 8 else 0)

/-- Castling side, source `"K"` / `"Q"`. -/
inductive CSide
  | K
  | Q
deriving DecidableEq, Repr, Inhabited

/-- A move record as produced by `generatePseudoMoves`.  Fields the source
leaves `undefined` on some moves (`capturedIndex`, `castleSide`,
`isDoublePawn`) are `Option`s / default-`false` booleans. -/
structure Move where
  fromSq : Nat
  toSq : Nat
  piece : Piece
  captured : Option Piece := none
  capturedIndex : Option Nat := none
  promotion : Option PKind := none
  isCastle : Bool := false
  castleSide : Option CSide := none
  isEnPassant : Bool := false
  isDoublePawn : Bool := false
deriving DecidableEq, Repr, Inhabited

/-- The undo record built at the top of `makeMove`. -/
structure Undo where
  move : Move
  prevTurn : Color
  prevCastling : Castling
  prevEp : Option Nat
  prevHalfmove : Nat
  prevFullmove : Nat
  prevHash : Nat
  prevWKing : Nat
  prevBKing : Nat
  captured : Option Piece
deriving DecidableEq, Repr, Inhabited

/-- The engine state: the fields of `ChessEngine`.  The repetition `Map` is an
association list in insertion order; `hashLine` grows at the tail like the
source array. -/
structure Engine where
  board : List (Option Piece)
  turn : Color
  castling : Castling
  ep : Option Nat
  halfmove : Nat
  fullmove : Nat
  wKing : Nat
  bKing : Nat
  hash : Nat
  rep : List (Nat × Nat)
  hashLine : List Nat
deriving DecidableEq, Repr, Inhabited

/-- Board read `this.board[i]` for a `Nat` index: out of range gives
`undefined`, i.e. `none`. -/
def boardGet (bd : List (Option Piece)) (i : Nat) : Option Piece := bd.getD i none

/-- Board read for an `Int`-computed index (square plus signed offset). -/
def boardGetI (bd : List (Option Piece)) (i : Int) : Option Piece :=
  if 0 ≤ i ∧ i < 64 then bd.getD i.toNat none else none

/-- `Map.get` on the repetition list. -/
def repGet : List (Nat × Nat) → Nat → Option Nat
  | [], _ => none
  | kv :: rest, key => if kv.1 = key then some kv.2 else repGet rest key

/-- `Map.set` on the repetition list: update in place, else append. -/
def repSet : List (Nat × Nat) → Nat → Nat → List (Nat × Nat)
  | [], key, v => [(key, v)]
  | kv :: rest, key, v =>
    if kv.1 = key then (key, v) :: rest else kv :: repSet rest key v

/-- `Map.delete` on the repetition list. -/
def repDelete : List (Nat × Nat) → Nat → List (Nat × Nat)
  | [], _ => []
  | kv :: rest, key => if kv.1 = key then rest else kv :: repDelete rest key

/-- Source `_computeHash()`. -/
def computeHash (e : Engine) : Nat :=
  let h0 := (List.range 64).foldl
    (fun h i =>
      match boardGet e.board i with
      | none => h
      | some pc => h ^^^ ZPiece (pieceIndex pc) i) 0
  let h1 := if e.turn = Color.b then h0 ^^^ ZSide else h0
  let h2 := h1 ^^^ ZCastle (castleMaskFromRights e.castling)
  match e.ep with
  | none => h2
  | some sq => h2 ^^^ ZEpFile (fileOf sq)

/-- Source `_setRepetitionFromLine()`: rebuild the repetition map from the
hash line. -/
def setRepetitionFromLine (line : List Nat) : List (Nat × Nat) :=
  line.foldl (fun rep h => repSet rep h ((repGet rep h).getD 0 + 1)) []

/-- One sliding-attack ray of `isSquareAttacked`, source local `scan` for a
single direction `d`; `fuel` bounds the `while` loop (64 exceeds any ray
length on the 64-square board). -/
def scanRay (bd : List (Option Piece)) (byColor : Color) (rookLike : Bool) (d : Int) :
    Nat → Int → Bool
  | 0, _ => false
  | fuel + 1, cur =>
    if 0 ≤ cur ∧ cur < 64 then
      let df := adiff (fileOf cur.toNat) (fileOf (cur - d).toNat)
      if (d = -1 ∨ d = 1) ∧ df ≠ 1 then false
      else if (d = -9 ∨ d = 7 ∨ d = -7 ∨ d = 9) ∧ df ≠ 1 then false
      else
        match boardGet bd cur.toNat with
        | some pc =>
          if pc.color = byColor then
            if rookLike then decide (pc.kind = PKind.r ∨ pc.kind = PKind.q)
            else decide (pc.kind = PKind.b ∨ pc.kind = PKind.q)
          else false
        | none => scanRay bd byColor rookLike d fuel (cur + d)
    else false

/-- Source `isSquareAttacked(square, byColor)`. -/
def isSquareAttacked (e : Engine) (square : Nat) (byColor : Color) : Bool :=
  let byWhite := byColor = Color.w
  let pawnHit :=
    (if byWhite then [(7 : Int), 9] else [-9, -7]).any fun d =>
      let fromI := (square : Int) + d
      if 0 ≤ fromI ∧ fromI < 64 then
        if adiff (fileOf square) (fileOf fromI.toNat) ≠ 1 then false
        else
          match boardGet e.board fromI.toNat with
          | none => false
          | some pc => decide (pc = ⟨byColor, .p⟩)
      else false
  if pawnHit then true
  else
    let knightHit :=
      [(-17 : Int), -15, -10, -6, 6, 10, 15, 17].any fun d =>
        let fromI := (square : Int) + d
        if 0 ≤ fromI ∧ fromI < 64 then
          let df := adiff (fileOf square) (fileOf fromI.toNat)
          let dr := adiff (rankOf square) (rankOf fromI.toNat)
          if (df = 1 ∧ dr = 2) ∨ (df = 2 ∧ dr = 1) then
            match boardGet e.board fromI.toNat with
            | none => false
            | some pc => decide (pc = ⟨byColor, .n⟩)
          else false
        else false
    if knightHit then true
    else
      let kingHit :=
        [(-9 : Int), -8, -7, -1, 1, 7, 8, 9].any fun d =>
          let fromI := (square : Int) + d
          if 0 ≤ fromI ∧ fromI < 64 then
            let df := adiff (fileOf square) (fileOf fromI.toNat)
            let dr := adiff (rankOf square) (rankOf fromI.toNat)
            if df > 1 ∨ dr > 1 then false
            else
              match boardGet e.board fromI.toNat with
              | none => false
              | some pc => decide (pc = ⟨byColor, .k⟩)
          else false
      if kingHit then true
      else if [(-8 : Int), 8, -1, 1].any fun d =>
          scanRay e.board byColor true d 64 ((square : Int) + d) then true
      else if [(-9 : Int), -7, 7, 9].any fun d =>
          scanRay e.board byColor false d 64 ((square : Int) + d) then true
      else false

/-- Source `inCheck(color)`. -/
def inCheck (e : Engine) (color : Color) : Bool :=
  isSquareAttacked e (if color = Color.w then e.wKing else e.bKing) (opponent color)

/-- Pawn emissions of `generatePseudoMoves` from square `f`. -/
def pawnMovesFrom (e : Engine) (c : Color) (f : Nat) (piece : Piece) : List Move :=
  let forward : Int := if c = Color.w then -8 else 8
  let startRank : Nat := if c = Color.w then 6 else 1
  let promoRank : Nat := if c = Color.w then 0 else 7
  let enemyColor := opponent c
  let r := rankOf f
  let oneI := (f : Int) + forward
  let pushes :=
    if 0 ≤ oneI ∧ oneI < 64 then
      let one := oneI.toNat
      if boardGet e.board one = none then
        if rankOf one = promoRank then
          [PKind.q, PKind.r, PKind.b, PKind.n].map fun promo =>
            { fromSq := f, toSq := one, piece, captured := none, promotion := some promo,
              isCastle := false, isEnPassant := false }
        else
          { fromSq := f, toSq := one, piece, captured := none, promotion := none,
            isCastle := false, isEnPassant := false } ::
          (if r = startRank ∧ boardGetI e.board (oneI + forward) = none then
            [{ fromSq := f, toSq := (oneI + forward).toNat, piece, captured := none,
               promotion := none, isCastle := false, isEnPassant := false,
               isDoublePawn := true }]
          else [])
      else []
    else []
  let caps :=
    (if c = Color.w then [(-9 : Int), -7] else [7, 9]).flatMap fun d =>
      let toI := (f : Int) + d
      if 0 ≤ toI ∧ toI < 64 then
        let toN := toI.toNat
        if adiff (fileOf f) (fileOf toN) ≠ 1 then []
        else
          -- the en-passant branch runs when the target square does not hold
          -- an enemy piece (source: `else if` after the capture test)
          let epCase : List Move :=
            match e.ep with
            | none => []
            | some epSq =>
              if toN = epSq then
                let capSqI := toI - forward
                match boardGetI e.board capSqI with
                | none => []
                | some capPiece =>
                  if capPiece.kind = PKind.p ∧ capPiece.color = enemyColor then
                    [{ fromSq := f, toSq := toN, piece, captured := some capPiece,
                       capturedIndex := some capSqI.toNat, promotion := none,
                       isCastle := false, isEnPassant := true }]
                  else []
              else []
          match boardGet e.board toN with
          | some target =>
            if target.color = enemyColor then
              if rankOf toN = promoRank then
                [PKind.q, PKind.r, PKind.b, PKind.n].map fun promo =>
                  { fromSq := f, toSq := toN, piece, captured := some target,
                    promotion := some promo, isCastle := false, isEnPassant := false }
              else
                [{ fromSq := f, toSq := toN, piece, captured := some target,
                   promotion := none, isCastle := false, isEnPassant := false }]
            else epCase
          | none => epCase
      else []
  pushes ++ caps

/-- Knight emissions of `generatePseudoMoves` from square `f`. -/
def knightMovesFrom (e : Engine) (c : Color) (f : Nat) (piece : Piece) : List Move :=
  [(-17 : Int), -15, -10, -6, 6, 10, 15, 17].flatMap fun d =>
    let toI := (f : Int) + d
    if 0 ≤ toI ∧ toI < 64 then
      let toN := toI.toNat
      let df := adiff (fileOf f) (fileOf toN)
      let dr := adiff (rankOf f) (rankOf toN)
      if (df = 1 ∧ dr = 2) ∨ (df = 2 ∧ dr = 1) then
        match boardGet e.board toN with
        | none =>
          [{ fromSq := f, toSq := toN, piece, captured := none, promotion := none,
             isCastle := false, isEnPassant := false }]
        | some target =>
          if target.color = opponent c then
            [{ fromSq := f, toSq := toN, piece, captured := some target, promotion := none,
               isCastle := false, isEnPassant := false }]
          else []
      else []
    else []

/-- One sliding ray of `generatePseudoMoves` (bishop / rook / queen), the
source `while` loop for a single direction `d`. -/
def slideRay (e : Engine) (c : Color) (f : Nat) (piece : Piece) (d : Int) :
    Nat → Int → List Move
  | 0, _ => []
  | fuel + 1, toI =>
    if 0 ≤ toI ∧ toI < 64 then
      let df := adiff (fileOf toI.toNat) (fileOf (toI - d).toNat)
      if (d = -1 ∨ d = 1) ∧ df ≠ 1 then []
      else if (d = -9 ∨ d = 7 ∨ d = -7 ∨ d = 9) ∧ df ≠ 1 then []
      else
        match boardGet e.board toI.toNat with
        | none =>
          { fromSq := f, toSq := toI.toNat, piece, captured := none, promotion := none,
            isCastle := false, isEnPassant := false } ::
          slideRay e c f piece d fuel (toI + d)
        | some target =>
          if target.color = opponent c then
            [{ fromSq := f, toSq := toI.toNat, piece, captured := some target,
               promotion := none, isCastle := false, isEnPassant := false }]
          else []
    else []

/-- Sliding emissions of `generatePseudoMoves` over a direction set. -/
def slideMovesFrom (e : Engine) (c : Color) (f : Nat) (piece : Piece) (dirs : List Int) :
    List Move :=
  dirs.flatMap fun d => slideRay e c f piece d 64 ((f : Int) + d)

/-- Source local `canCastle(side)` inside `generatePseudoMoves`. -/
def canCastle (e : Engine) (c : Color) (f : Nat) (side : CSide) : Bool :=
  if c = Color.w ∧ f ≠ 60 then false
  else if c = Color.b ∧ f ≠ 4 then false
  else if inCheck e c then false
  else
    let enemyColor := opponent c
    if c = Color.w then
      if side = CSide.K then
        if ¬ e.castling.K then false
        else if boardGet e.board 61 ≠ none ∨ boardGet e.board 62 ≠ none then false
        else if boardGet e.board 63 ≠ some ⟨.w, .r⟩ then false
        else if isSquareAttacked e 61 enemyColor ∨ isSquareAttacked e 62 enemyColor then false
        else true
      else
        if ¬ e.castling.Q then false
        else if boardGet e.board 59 ≠ none ∨ boardGet e.board 58 ≠ none ∨
            boardGet e.board 57 ≠ none then false
        else if boardGet e.board 56 ≠ some ⟨.w, .r⟩ then false
        else if isSquareAttacked e 59 enemyColor ∨ isSquareAttacked e 58 enemyColor then false
        else true
    else
      if side = CSide.K then
        if ¬ e.castling.k then false
        else if boardGet e.board 5 ≠ none ∨ boardGet e.board 6 ≠ none then false
        else if boardGet e.board 7 ≠ some ⟨.b, .r⟩ then false
        else if isSquareAttacked e 5 enemyColor ∨ isSquareAttacked e 6 enemyColor then false
        else true
      else
        if ¬ e.castling.q then false
        else if boardGet e.board 3 ≠ none ∨ boardGet e.board 2 ≠ none ∨
            boardGet e.board 1 ≠ none then false
        else if boardGet e.board 0 ≠ some ⟨.b, .r⟩ then false
        else if isSquareAttacked e 3 enemyColor ∨ isSquareAttacked e 2 enemyColor then false
        else true

/-- King emissions of `generatePseudoMoves` from square `f`: step moves, then
the king-side castle, then the queen-side castle. -/
def kingMovesFrom (e : Engine) (c : Color) (f : Nat) (piece : Piece) : List Move :=
  let normal :=
    [(-9 : Int), -8, -7, -1, 1, 7, 8, 9].flatMap fun d =>
      let toI := (f : Int) + d
      if 0 ≤ toI ∧ toI < 64 then
        let toN := toI.toNat
        let df := adiff (fileOf f) (fileOf toN)
        let dr := adiff (rankOf f) (rankOf toN)
        if df > 1 ∨ dr > 1 then []
        else
          match boardGet e.board toN with
          | none =>
            [{ fromSq := f, toSq := toN, piece, captured := none, promotion := none,
               isCastle := false, isEnPassant := false }]
          | some target =>
            if target.color = opponent c then
              [{ fromSq := f, toSq := toN, piece, captured := some target, promotion := none,
                 isCastle := false, isEnPassant := false }]
            else []
      else []
  normal ++
  (if canCastle e c f CSide.K then
    [{ fromSq := f, toSq := if c = Color.w then 62 else 6, piece, captured := none,
       promotion := none, isCastle := true, castleSide := some CSide.K,
       isEnPassant := false }]
  else []) ++
  (if canCastle e c f CSide.Q then
    [{ fromSq := f, toSq := if c = Color.w then 58 else 2, piece, captured := none,
       promotion := none, isCastle := true, castleSide := some CSide.Q,
       isEnPassant := false }]
  else [])

/-- Emissions of `generatePseudoMoves` for one origin square. -/
def pseudoMovesFrom (e : Engine) (c : Color) (f : Nat) : List Move :=
  match boardGet e.board f with
  | none => []
  | some piece =>
    if piece.color ≠ c then []
    else
      match piece.kind with
      | .p => pawnMovesFrom e c f piece
      | .n => knightMovesFrom e c f piece
      | .b => slideMovesFrom e c f piece [-9, -7, 7, 9]
      | .r => slideMovesFrom e c f piece [-8, 8, -1, 1]
      | .q => slideMovesFrom e c f piece [-9, -7, 7, 9, -8, 8, -1, 1]
      | .k => kingMovesFrom e c f piece

/-- Source `generatePseudoMoves(color)`: scan squares 0..63 in order. -/
def generatePseudoMoves (e : Engine) (c : Color) : List Move :=
  (List.range 64).flatMap (pseudoMovesFrom e c)

/-- Source `_updateCastlingRightsAfterMove(from, to, piece, captured)`. -/
def updateCastlingRightsAfterMove (cast : Castling) (fromSq toSq : Nat) (piece : Piece)
    (captured : Option Piece) : Castling :=
  let c1 :=
    if piece = ⟨.w, .k⟩ then { cast with K := false, Q := false }
    else if piece = ⟨.b, .k⟩ then { cast with k := false, q := false }
    else if piece = ⟨.w, .r⟩ then
      { cast with K := if fromSq = 63 then false else cast.K,
                  Q := if fromSq = 56 then false else cast.Q }
    else if piece = ⟨.b, .r⟩ then
      { cast with k := if fromSq = 7 then false else cast.k,
                  q := if fromSq = 0 then false else cast.q }
    else cast
  if captured = some ⟨.w, .r⟩ then
    { c1 with K := if toSq = 63 then false else c1.K,
              Q := if toSq = 56 then false else c1.Q }
  else if captured = some ⟨.b, .r⟩ then
    { c1 with k := if toSq = 7 then false else c1.k,
              q := if toSq = 0 then false else c1.q }
  else c1

/-- The castling rook relocation of `makeMove`: source `_moveRookHash` picks
squares by `this.turn` (not by the color of the moving piece). -/
def castleRookMv (turn : Color) (m : Move) : Option (Nat × Nat × Piece) :=
  if m.isCastle then
    if turn = Color.w then
      if m.castleSide = some CSide.K then some (63, 61, ⟨.w, .r⟩)
      else some (56, 59, ⟨.w, .r⟩)
    else
      if m.castleSide = some CSide.K then some (7, 5, ⟨.b, .r⟩)
      else some (0, 3, ⟨.b, .r⟩)
  else none

/-- Source `makeMove(move, { trackHistory })`: returns the mutated engine and
the undo record. -/
def makeMove (e : Engine) (m : Move) (trackHistory : Bool) : Engine × Undo :=
  let captured :=
    if m.isEnPassant then
      match m.capturedIndex with
      | some ci => boardGet e.board ci
      | none => none
    else boardGet e.board m.toSq
  let undo : Undo :=
    { move := m, prevTurn := e.turn, prevCastling := e.castling, prevEp := e.ep,
      prevHalfmove := e.halfmove, prevFullmove := e.fullmove, prevHash := e.hash,
      prevWKing := e.wKing, prevBKing := e.bKing, captured }
  let oldCastleMask := castleMaskFromRights e.castling
  let h1 :=
    match e.ep with
    | some epSq => e.hash ^^^ ZEpFile (fileOf epSq)
    | none => e.hash
  let h2 := h1 ^^^ ZCastle oldCastleMask
  let h3 := h2 ^^^ ZPiece (pieceIndex m.piece) m.fromSq
  let b1 := e.board.set m.fromSq none
  let capSq := if m.isEnPassant then m.capturedIndex.getD 0 else m.toSq
  let h4 :=
    match captured with
    | some cp => h3 ^^^ ZPiece (pieceIndex cp) capSq
    | none => h3
  let b2 :=
    match captured with
    | some _ => b1.set capSq none
    | none => b1
  let placed :=
    match m.promotion with
    | some pk => if e.turn = Color.w then (⟨.w, pk⟩ : Piece) else ⟨.b, pk⟩
    | none => m.piece
  let h5 := h4 ^^^ ZPiece (pieceIndex placed) m.toSq
  let b3 := b2.set m.toSq (some placed)
  let wK1 := if m.piece.kind = PKind.k ∧ e.turn = Color.w then m.toSq else e.wKing
  let bK1 := if m.piece.kind = PKind.k ∧ e.turn = Color.b then m.toSq else e.bKing
  let rookMv := castleRookMv e.turn m
  let b4 :=
    match rookMv with
    | some (rf, rt, rp) => (b3.set rf none).set rt (some rp)
    | none => b3
  let h6 :=
    match rookMv with
    | some (rf, rt, rp) => (h5 ^^^ ZPiece (pieceIndex rp) rf) ^^^ ZPiece (pieceIndex rp) rt
    | none => h5
  let cast2 := updateCastlingRightsAfterMove e.castling m.fromSq m.toSq m.piece captured
  let newEp : Option Nat :=
    if m.piece.kind = PKind.p ∧ ((m.toSq : Int) - (m.fromSq : Int)).natAbs = 16 then
      some ((m.toSq + m.fromSq) / 2)
    else none
  let h7 := h6 ^^^ ZCastle (castleMaskFromRights cast2)
  let h8 :=
    match newEp with
    | some sq => h7 ^^^ ZEpFile (fileOf sq)
    | none => h7
  let newHalf := if m.piece.kind = PKind.p ∨ captured.isSome then 0 else e.halfmove + 1
  let newFull := if e.turn = Color.b then e.fullmove + 1 else e.fullmove
  let h9 := h8 ^^^ ZSide
  let newHashLine := if trackHistory then e.hashLine ++ [h9] else e.hashLine
  let newRep :=
    if trackHistory then repSet e.rep h9 ((repGet e.rep h9).getD 0 + 1) else e.rep
  ({ board := b4, turn := opponent e.turn, castling := cast2, ep := newEp,
     halfmove := newHalf, fullmove := newFull, wKing := wK1, bKing := bK1, hash := h9,
     rep := newRep, hashLine := newHashLine }, undo)

/-- Source `unmakeMove(undo, { trackHistory })`. -/
def unmakeMove (e : Engine) (undo : Undo) (trackHistory : Bool) : Engine :=
  let rep1 :=
    if trackHistory then
      let cur := (repGet e.rep e.hash).getD 0 - 1
      if cur = 0 then repDelete e.rep e.hash else repSet e.rep e.hash cur
    else e.rep
  let hl1 := if trackHistory then e.hashLine.dropLast else e.hashLine
  let m := undo.move
  let b1 := e.board.set m.fromSq (some m.piece)
  let b2 :=
    if m.isCastle then
      if undo.prevTurn = Color.w then
        if m.castleSide = some CSide.K then (b1.set 63 (some ⟨.w, .r⟩)).set 61 none
        else (b1.set 56 (some ⟨.w, .r⟩)).set 59 none
      else
        if m.castleSide = some CSide.K then (b1.set 7 (some ⟨.b, .r⟩)).set 5 none
        else (b1.set 0 (some ⟨.b, .r⟩)).set 3 none
    else b1
  let b3 := b2.set m.toSq none
  let b4 :=
    match undo.captured with
    | some cp => b3.set (if m.isEnPassant then m.capturedIndex.getD 0 else m.toSq) (some cp)
    | none => b3
  { board := b4, turn := undo.prevTurn, castling := undo.prevCastling, ep := undo.prevEp,
    halfmove := undo.prevHalfmove, fullmove := undo.prevFullmove, hash := undo.prevHash,
    wKing := undo.prevWKing, bKing := undo.prevBKing, rep := rep1, hashLine := hl1 }

/-- Source `generateLegalMoves(color)` with the engine threaded explicitly:
each pseudo move is applied, the check test taken, and the move reverted, on
the live engine. -/
def generateLegalMovesE (e : Engine) (c : Color) : List Move × Engine :=
  (generatePseudoMoves e c).foldl
    (fun acc m =>
      let mk := makeMove acc.2 m false
      let ok := ¬ inCheck mk.1 c
      let e2 := unmakeMove mk.1 mk.2 false
      (if ok then acc.1 ++ [m] else acc.1, e2))
    ([], e)

/-- The move list returned by `generateLegalMoves(color)`. -/
def generateLegalMoves (e : Engine) (c : Color) : List Move :=
  (generateLegalMovesE e c).1

/-- Source `getRepetitionCount()`. -/
def getRepetitionCount (e : Engine) : Nat :=
  (repGet e.rep e.hash).getD 0

/-- Source `isInsufficientMaterial()`; the early `return false` on pawn, queen
or rook is the `none` state of the fold. -/
def isInsufficientMaterial (e : Engine) : Bool :=
  let st := (List.range 64).foldl
    (fun st i =>
      match st with
      | none => none
      | some (counts : Nat × Nat × Nat × Nat) =>
        match boardGet e.board i with
        | none => some counts
        | some pc =>
          match pc.kind with
          | .k => some counts
          | .p => none
          | .q => none
          | .r => none
          | .b =>
            if pc.color = Color.w then some (counts.1 + 1, counts.2.1, counts.2.2.1, counts.2.2.2)
            else some (counts.1, counts.2.1, counts.2.2.1 + 1, counts.2.2.2)
          | .n =>
            if pc.color = Color.w then some (counts.1, counts.2.1 + 1, counts.2.2.1, counts.2.2.2)
            else some (counts.1, counts.2.1, counts.2.2.1, counts.2.2.2 + 1))
    (some (0, 0, 0, 0))
  match st with
  | none => false
  | some (wB, wN, bB, bN) =>
    decide (¬ (wB ≥ 2 ∨ (wB ≥ 1 ∧ wN ≥ 1) ∨ wN ≥ 3) ∧
            ¬ (bB ≥ 2 ∨ (bB ≥ 1 ∧ bN ≥ 1) ∨ bN ≥ 3))

/-- The game-result kinds of `getGameResult()`. -/
inductive GameResultKind
  | checkmate
  | stalemate
  | fiftyMove
  | threefold
  | insufficient
deriving DecidableEq, Repr, Inhabited

/-- The record returned by `getGameResult()`. -/
structure GameResult where
  over : Bool
  result : Option GameResultKind
  winner : Option Color
deriving DecidableEq, Repr, Inhabited

/-- Source `getGameResult()` with the engine threaded through the internal
`generateLegalMoves` call. -/
def getGameResultE (e : Engine) : GameResult × Engine :=
  let lg := generateLegalMovesE e e.turn
  let e1 := lg.2
  let chk := inCheck e1 e1.turn
  if lg.1.length = 0 then
    if chk then
      ({ over := true, result := some .checkmate, winner := some (opponent e1.turn) }, e1)
    else ({ over := true, result := some .stalemate, winner := none }, e1)
  else if e1.halfmove ≥ 100 then
    ({ over := true, result := some .fiftyMove, winner := none }, e1)
  else if getRepetitionCount e1 ≥ 3 then
    ({ over := true, result := some .threefold, winner := none }, e1)
  else if isInsufficientMaterial e1 then
    ({ over := true, result := some .insufficient, winner := none }, e1)
  else ({ over := false, result := none, winner := none }, e1)

/-- The classification returned by `getGameResult()`. -/
def getGameResult (e : Engine) : GameResult :=
  (getGameResultE e).1

/-- Source `PIECE_VALUES`. -/
def PIECE_VALUES (kd : PKind) : Int :=
  match kd with
  | .p => 100
  | .n => 320
  | .b => 330
  | .r => 500
  | .q => 900
  | .k => 0

/-- Source piece-square table `PST.pawn`. -/
def PSTpawn : List Int :=
  [0, 0, 0, 0, 0, 0, 0, 0,
   50, 50, 50, 50, 50, 50, 50, 50,
   10, 10, 20, 30, 30, 20, 10, 10,
   5, 5, 10, 25, 25, 10, 5, 5,
   0, 0, 0, 20, 20, 0, 0, 0,
   5, -5, -10, 0, 0, -10, -5, 5,
   5, 10, 10, -20, -20, 10, 10, 5,
   0, 0, 0, 0, 0, 0, 0, 0]

/-- Source piece-square table `PST.knight`. -/
def PSTknight : List Int :=
  [-50, -40, -30, -30, -30, -30, -40, -50,
   -40, -20, 0, 0, 0, 0, -20, -40,
   -30, 0, 10, 15, 15, 10, 0, -30,
   -30, 5, 15, 20, 20, 15, 5, -30,
   -30, 0, 15, 20, 20, 15, 0, -30,
   -30, 5, 10, 15, 15, 10, 5, -30,
   -40, -20, 0, 5, 5, 0, -20, -40,
   -50, -40, -30, -30, -30, -30, -40, -50]

/-- Source piece-square table `PST.bishop`. -/
def PSTbishop : List Int :=
  [-20, -10, -10, -10, -10, -10, -10, -20,
   -10, 0, 0, 0, 0, 0, 0, -10,
   -10, 0, 5, 10, 10, 5, 0, -10,
   -10, 5, 5, 10, 10, 5, 5, -10,
   -10, 0, 10, 10, 10, 10, 0, -10,
   -10, 10, 10, 10, 10, 10, 10, -10,
   -10, 5, 0, 0, 0, 0, 5, -10,
   -20, -10, -10, -10, -10, -10, -10, -20]

/-- Source piece-square table `PST.rook`. -/
def PSTrook : List Int :=
  [0, 0, 0, 0, 0, 0, 0, 0,
   5, 10, 10, 10, 10, 10, 10, 5,
   -5, 0, 0, 0, 0, 0, 0, -5,
   -5, 0, 0, 0, 0, 0, 0, -5,
   -5, 0, 0, 0, 0, 0, 0, -5,
   -5, 0, 0, 0, 0, 0, 0, -5,
   -5, 0, 0, 0, 0, 0, 0, -5,
   0, 0, 0, 5, 5, 0, 0, 0]

/-- Source piece-square table `PST.queen`. -/
def PSTqueen : List Int :=
  [-20, -10, -10, -5, -5, -10, -10, -20,
   -10, 0, 0, 0, 0, 0, 0, -10,
   -10, 0, 5, 5, 5, 5, 0, -10,
   -5, 0, 5, 5, 5, 5, 0, -5,
   0, 0, 5, 5, 5, 5, 0, -5,
   -10, 5, 5, 5, 5, 5, 0, -10,
   -10, 0, 5, 0, 0, 0, 0, -10,
   -20, -10, -10, -5, -5, -10, -10, -20]

/-- Source piece-square table `PST.kingMid`. -/
def PSTkingMid : List Int :=
  [-30, -40, -40, -50, -50, -40, -40, -30,
   -30, -40, -40, -50, -50, -40, -40, -30,
   -30, -40, -40, -50, -50, -40, -40, -30,
   -30, -40, -40, -50, -50, -40, -40, -30,
   -20, -30, -30, -40, -40, -30, -30, -20,
   -10, -20, -20, -20, -20, -20, -20, -10,
   20, 20, 0, 0, 0, 0, 20, 20,
   20, 30, 10, 0, 0, 10, 30, 20]

/-- Table selection in `evaluate`. -/
def pstFor (kd : PKind) : List Int :=
  match kd with
  | .p => PSTpawn
  | .n => PSTknight
  | .b => PSTbishop
  | .r => PSTrook
  | .q => PSTqueen
  | .k => PSTkingMid

/-- The material and piece-square summation loop of `evaluate`. -/
def materialScore (bd : List (Option Piece)) (perspectiveColor : Color) : Int :=
  (List.range 64).foldl
    (fun s i =>
      match boardGet bd i with
      | none => s
      | some pc =>
        let base := PIECE_VALUES pc.kind
        let pst := pstFor pc.kind
        let ps := if pc.color = Color.w then pst.getD i 0 else pst.getD (63 - i) 0
        let v := base + ps
        if pc.color = perspectiveColor then s + v else s - v)
    0

/-- Source `evaluate(engine, perspectiveColor)` with the engine threaded
through its two `generateLegalMoves` calls. -/
def evaluateE (e : Engine) (perspectiveColor : Color) : Int × Engine :=
  let score0 := materialScore e.board perspectiveColor
  let g1 := generateLegalMovesE e perspectiveColor
  let g2 := generateLegalMovesE g1.2 (opponent perspectiveColor)
  let mobility : Int := (g1.1.length : Int) - (g2.1.length : Int)
  (score0 + clamp mobility (-20) 20 * 2, g2.2)

/-- The score returned by `evaluate(engine, perspectiveColor)`. -/
def evaluate (e : Engine) (perspectiveColor : Color) : Int :=
  (evaluateE e perspectiveColor).1

/-- The comparator score of `orderMoves`. -/
def moveScore (m : Move) : Int :=
  (if m.promotion.isSome then 900 else 0) +
  (if m.captured.isSome ∨ m.isEnPassant then
    (match m.captured with
      | some cp => PIECE_VALUES cp.kind
      | none => 0) * 10 - PIECE_VALUES m.piece.kind
  else 0)

/-- Source `orderMoves(moves)`: `Array.prototype.sort` with comparator
`bScore - aScore` is a stable sort and therefore produces exactly the stable
descending-score ordering, here realized by insertion sort. -/
def orderMoves (moves : List Move) : List Move :=
  moves.insertionSort fun a b => moveScore b ≤ moveScore a

/-- The file letters, source constant `FILES = "abcdefgh"`. -/
def FILES : List Char := ['a', 'b', 'c', 'd', 'e', 'f', 'g', 'h']

/-- The rank digits, source constant `RANKS = "87654321"`. -/
def RANKS : List Char := ['8', '7', '6', '5', '4', '3', '2', '1']

/-- Source `indexToSquare(index)`, as a character list. -/
def indexToSquareChars (i : Nat) : List Char :=
  [FILES.getD (fileOf i) 'a', RANKS.getD (rankOf i) '8']

/-- Source `squareToIndex(square)`: `null` on short strings or characters
outside the file and rank alphabets; extra trailing characters are ignored. -/
def squareToIndexChars (cs : List Char) : Option Nat :=
  match cs with
  | c0 :: c1 :: _ =>
    match FILES.findIdx? (fun c => c = c0), RANKS.findIdx? (fun c => c = c1) with
    | some file, some rank => some (rank * 8 + file)
    | _, _ => none
  | _ => none

/-- JavaScript whitespace test for the `\s+` field separator. -/
def isWs (ch : Char) : Bool := ch.isWhitespace

/-- `String.trim()`: drop whitespace from both ends. -/
def trimChars (cs : List Char) : List Char :=
  ((cs.dropWhile isWs).reverse.dropWhile isWs).reverse

/-- `split(/\s+/)` on a trimmed character list (no empty fields survive). -/
def wsSplit : List Char → List Char → List (List Char)
  | [], acc => if acc = [] then [] else [acc.reverse]
  | ch :: rest, acc =>
    if isWs ch then
      if acc = [] then wsSplit rest [] else acc.reverse :: wsSplit rest []
    else wsSplit rest (ch :: acc)

/-- `split("/")`, keeping empty pieces like the JavaScript original. -/
def slashSplit : List Char → List Char → List (List Char)
  | [], acc => [acc.reverse]
  | ch :: rest, acc =>
    if ch = '/' then acc.reverse :: slashSplit rest []
    else slashSplit rest (ch :: acc)

/-- FEN letter of a piece. -/
def pieceChar (pc : Piece) : Char :=
  match pc.color, pc.kind with
  | .w, .p => 'P'
  | .w, .n => 'N'
  | .w, .b => 'B'
  | .w, .r => 'R'
  | .w, .q => 'Q'
  | .w, .k => 'K'
  | .b, .p => 'p'
  | .b, .n => 'n'
  | .b, .b => 'b'
  | .b, .r => 'r'
  | .b, .q => 'q'
  | .b, .k => 'k'

/-- Piece of a FEN letter, `none` outside `[prnbqkPRNBQK]`. -/
def charToPiece (ch : Char) : Option Piece :=
  if ch = 'P' then some ⟨.w, .p⟩
  else if ch = 'N' then some ⟨.w, .n⟩
  else if ch = 'B' then some ⟨.w, .b⟩
  else if ch = 'R' then some ⟨.w, .r⟩
  else if ch = 'Q' then some ⟨.w, .q⟩
  else if ch = 'K' then some ⟨.w, .k⟩
  else if ch = 'p' then some ⟨.b, .p⟩
  else if ch = 'n' then some ⟨.b, .n⟩
  else if ch = 'b' then some ⟨.b, .b⟩
  else if ch = 'r' then some ⟨.b, .r⟩
  else if ch = 'q' then some ⟨.b, .q⟩
  else if ch = 'k' then some ⟨.b, .k⟩
  else none

/-- The digit character of `n` for `n ≤ 9`. -/
def natDigitChar (n : Nat) : Char := Char.ofNat ('0'.toNat + n)

/-- Decimal digits of a number, the JavaScript `String(n)` of a nonnegative
integer. -/
def natToChars (n : Nat) : List Char :=
  if _hlt : n < 10 then [natDigitChar n]
  else natToChars (n / 10) ++ [natDigitChar (n % 10)]
decreasing_by exact Nat.div_lt_self (by omega) (by omega)

/-- `Number(s)` restricted to decimal numerals: `some` exactly on nonempty
digit strings.  The source only consults the result through
`Number.isFinite(v) && v ≥ bound`, and every string it can be given by
`toFEN` or by the claims below is a plain numeral, negative numeral or
non-numeral, on all of which this model agrees with JavaScript. -/
def charsToNat? (cs : List Char) : Option Nat :=
  if cs ≠ [] ∧ cs.all (fun c => '0' ≤ c ∧ c ≤ '9') then
    some (cs.foldl (fun a c => a * 10 + (c.toNat - '0'.toNat)) 0)
  else none

/-- One rank of the `toFEN()` placement field, with the run-length counter for
empty squares. -/
def rowFEN (bd : List (Option Piece)) (r : Nat) : List Char :=
  let st := (List.range 8).foldl
    (fun (acc : List Char × Nat) f =>
      match boardGet bd (r * 8 + f) with
      | none => (acc.1, acc.2 + 1)
      | some pc =>
        (acc.1 ++ (if acc.2 ≠ 0 then [natDigitChar acc.2] else []) ++ [pieceChar pc], 0))
    ([], 0)
  st.1 ++ (if st.2 ≠ 0 then [natDigitChar st.2] else [])

/-- Source `toFEN()`, as a character list. -/
def toFENChars (e : Engine) : List Char :=
  let placement := (List.range 8).foldl
    (fun acc r => acc ++ rowFEN e.board r ++ (if r ≠ 7 then ['/'] else [])) []
  let cast :=
    (if e.castling.K then ['K'] else []) ++ (if e.castling.Q then ['Q'] else []) ++
    (if e.castling.k then ['k'] else []) ++ (if e.castling.q then ['q'] else [])
  let castS := if cast = [] then ['-'] else cast
  let epS :=
    match e.ep with
    | none => ['-']
    | some sq => indexToSquareChars sq
  placement ++ [' '] ++ [(if e.turn = Color.w then 'w' else 'b')] ++ [' '] ++ castS ++
    [' '] ++ epS ++ [' '] ++ natToChars e.halfmove ++ [' '] ++ natToChars e.fullmove

/-- Source `toFEN()`. -/
def toFEN (e : Engine) : String := String.mk (toFENChars e)

/-- The inner character loop of the `loadFEN` placement parse for one rank:
board cells are written as soon as they are read, so a later error leaves the
partially filled board in the returned error state. -/
def parseRowChars (e : Engine) (r : Nat) :
    List Char → Nat → Option Nat → Option Nat →
    Except (String × Engine) (Engine × Nat × Option Nat × Option Nat)
  | [], file, wK, bK => .ok (e, file, wK, bK)
  | ch :: rest, file, wK, bK =>
    if file > 7 then .error ("Invalid FEN (row overflow).", e)
    else if '1' ≤ ch ∧ ch ≤ '8' then
      parseRowChars e r rest (file + (ch.toNat - '0'.toNat)) wK bK
    else
      match charToPiece ch with
      | none => .error ("Invalid FEN (bad piece: " ++ ch.toString ++ ").", e)
      | some pc =>
        let idx := r * 8 + file
        let e2 := { e with board := e.board.set idx (some pc) }
        parseRowChars e2 r rest (file + 1)
          (if ch = 'K' then some idx else wK)
          (if ch = 'k' then some idx else bK)

/-- The rank loop of the `loadFEN` placement parse. -/
def parseRows (e : Engine) :
    List (List Char) → Nat → Option Nat → Option Nat →
    Except (String × Engine) (Engine × Option Nat × Option Nat)
  | [], _, wK, bK => .ok (e, wK, bK)
  | row :: rest, r, wK, bK =>
    match parseRowChars e r row 0 wK bK with
    | .error p => .error p
    | .ok (e2, file, wK2, bK2) =>
      if file ≠ 8 then .error ("Invalid FEN (row length).", e2)
      else parseRows e2 rest (r + 1) wK2 bK2

/-- The castling-rights parse of `loadFEN`: rights are set one character at a
time, so an invalid later character leaves earlier rights already set. -/
def parseCastlingChars (e : Engine) : List Char → Except (String × Engine) Engine
  | [] => .ok e
  | ch :: rest =>
    if ch = 'K' then
      parseCastlingChars { e with castling := { e.castling with K := true } } rest
    else if ch = 'Q' then
      parseCastlingChars { e with castling := { e.castling with Q := true } } rest
    else if ch = 'k' then
      parseCastlingChars { e with castling := { e.castling with k := true } } rest
    else if ch = 'q' then
      parseCastlingChars { e with castling := { e.castling with q := true } } rest
    else .error ("Invalid FEN (castling).", e)

/-- Source `loadFEN(fen)`.  The source mutates `this` and throws on invalid
input; here the error value carries the engine state at the moment of the
throw, so the claim that a failed import leaves the position untouched is the
statement that this state equals the input state. -/
def loadFEN (e : Engine) (fen : String) : Except (String × Engine) Engine :=
  let parts := wsSplit (trimChars fen.data) []
  if parts.length < 4 then .error ("Invalid FEN (expected at least 4 fields).", e)
  else
    let placement := parts.getD 0 []
    let turnS := parts.getD 1 []
    let castlingS := parts.getD 2 []
    let epS := parts.getD 3 []
    let rows := slashSplit placement []
    if rows.length ≠ 8 then .error ("Invalid FEN (piece placement).", e)
    else
      let e0 := { e with board := List.replicate 64 (none : Option Piece) }
      match parseRows e0 rows 0 none none with
      | .error p => .error p
      | .ok (e1, wK?, bK?) =>
        match wK?, bK? with
        | some wK, some bK =>
          if turnS = ['w'] ∨ turnS = ['b'] then
            let e2 := { e1 with turn := if turnS = ['w'] then Color.w else Color.b }
            let e3 := { e2 with castling := ⟨false, false, false, false⟩ }
            match (if castlingS = ['-'] then .ok e3 else parseCastlingChars e3 castlingS) with
            | .error p => .error p
            | .ok e4 =>
              match
                (if epS = ['-'] then .ok { e4 with ep := none }
                 else
                   match squareToIndexChars epS with
                   | none => Except.error ("Invalid FEN (en passant).", e4)
                   | some epIdx => Except.ok { e4 with ep := some epIdx }) with
              | .error p => .error p
              | .ok e5 =>
                let parts4 := parts.get? 4
                let parts5 := parts.get? 5
                let hm :=
                  match parts4 with
                  | some s => (charsToNat? s).getD 0
                  | none => 0
                let fm :=
                  match parts5 with
                  | some s =>
                    match charsToNat? s with
                    | some v => if v < 1 then 1 else v
                    | none => 1
                  | none => 1
                let e6 := { e5 with halfmove := hm, fullmove := fm, wKing := wK, bKing := bK }
                let h := computeHash e6
                let e7 := { e6 with hash := h, hashLine := [h] }
                .ok { e7 with rep := setRepetitionFromLine e7.hashLine }
          else .error ("Invalid FEN (turn).", e1)
        | _, _ => .error ("Invalid FEN (missing king).", e1)

/-- The engine state before the constructor's `loadFEN` call: the field
initializers of `ChessEngine`. -/
def blankEngine : Engine :=
  { board := List.replicate 64 none, turn := .w, castling := ⟨true, true, true, true⟩,
    ep := none, halfmove := 0, fullmove := 1, wKing := 60, bKing := 4, hash := 0,
    rep := [], hashLine := [] }

/-- Source `START_FEN`. -/
def START_FEN : String := "rnbqkbnr/pppppppp/8/8/8/8/PPPPPPPP/RNBQKBNR w KQkq - 0 1"

/-- The engine state produced by the constructor, `loadFEN(START_FEN)` on the
blank state (the start FEN parses, so the error branch is unreachable). -/
def startEngine : Engine :=
  match loadFEN blankEngine START_FEN with
  | .ok e => e
  | .error p => p.2

/-- The difficulty strings consumed by `findBestMove`: `"easy"`, `"hard"`, and
anything else (the UI's `"medium"`). -/
inductive Difficulty
  | easy
  | medium
  | hard
deriving DecidableEq, Repr, Inhabited

/-- Result record of the source local `negamax`. -/
structure NmRes where
  aborted : Bool
  score : Int
deriving DecidableEq, Repr, Inhabited

/-- Stands in for JavaScript `Infinity` in the search: strictly larger than
every score the search can produce, so comparisons behave identically. -/
def INF : Int := 1000000000

/-- The ambient data of one `findBestMove` search.  `timeUp k` is the value of
`performance.now() - start > timeLimit` at the k-th time check of the run;
quantifying over arbitrary streams covers every wall-clock behavior. -/
structure SearchCtx where
  timeUp : Nat → Bool
  perspective : Color
  maxDepth : Nat

/-- The move loop inside `negamax`: `best` accumulates, `alpha` tightens, and
`alpha >= beta` breaks; an aborted child aborts the whole node.  `next` is the
evaluation of a child node, `negamax` at one less depth. -/
def negamaxLoop (next : Engine → Int → Int → Nat → NmRes × Engine × Nat) :
    List Move → Engine → Int → Int → Int → Nat → NmRes × Engine × Nat
  | [], e, best, _, _, k => ({ aborted := false, score := best }, e, k)
  | m :: rest, e, best, alpha, beta, k =>
    let mk := makeMove e m false
    let r := next mk.1 (-beta) (-alpha) k
    let e2 := unmakeMove r.2.1 mk.2 false
    if r.1.aborted then (r.1, e2, r.2.2)
    else
      let score := -r.1.score
      let best2 := if score > best then score else best
      let alpha2 := if score > alpha then score else alpha
      if alpha2 ≥ beta then ({ aborted := false, score := best2 }, e2, r.2.2)
      else negamaxLoop next rest e2 best2 alpha2 beta r.2.2

/-- The source local `negamax(depth, alpha, beta)`, with the engine and the
time-check counter threaded through; structural recursion on `depth`. -/
def negamaxE (ctx : SearchCtx) : Nat → Engine → Int → Int → Nat →
    NmRes × Engine × Nat
  | depth, e, alpha, beta, k =>
    if ctx.timeUp k then ({ aborted := true, score := 0 }, e, k + 1)
    else
      let gr := getGameResultE e
      let e1 := gr.2
      if gr.1.over then
        if gr.1.result = some GameResultKind.checkmate then
          let losing := e1.turn
          let s : Int := if losing = ctx.perspective then -100000 else 100000
          ({ aborted := false, score := s - ((ctx.maxDepth : Int) - (depth : Int)) },
            e1, k + 1)
        else ({ aborted := false, score := 0 }, e1, k + 1)
      else
        match depth with
        | 0 =>
          let ev := evaluateE e1 ctx.perspective
          ({ aborted := false, score := ev.1 }, ev.2, k + 1)
        | d + 1 =>
          let lg := generateLegalMovesE e1 e1.turn
          negamaxLoop (negamaxE ctx d) (orderMoves lg.1) lg.2 (-INF) alpha beta (k + 1)


/-- The root move loop of one iterative-deepening iteration: returns the abort
flag, the local best move and score, and the threaded engine and counter.
`depth` is the `depth - 1` passed to `negamax` at the root. -/
def rootLoop (ctx : SearchCtx) (depth : Nat) :
    Engine → List Move → Move → Int → Nat → Bool × Move × Int × Engine × Nat
  | e, [], lbM, lbS, k => (false, lbM, lbS, e, k)
  | e, m :: rest, lbM, lbS, k =>
    let mk := makeMove e m false
    let r := negamaxE ctx depth mk.1 (-INF) INF k
    let e2 := unmakeMove r.2.1 mk.2 false
    if r.1.aborted then (true, lbM, lbS, e2, r.2.2)
    else
      let score := -r.1.score
      if score > lbS then rootLoop ctx depth e2 rest m score r.2.2
      else rootLoop ctx depth e2 rest lbM lbS r.2.2

/-- The iterative-deepening loop of `findBestMove`: `remaining` counts the
depths still to run (the current depth is `maxDepth - remaining + 1`).  On a
root abort the source sets `depth = maxDepth + 1` and breaks out of the inner
loop, so the local best is still committed if it beats the running best, and
the outer loop then ends. -/
def idLoop (ctx : SearchCtx) (legal : List Move) :
    Nat → Engine → Move → Int → Nat → Move
  | 0, _, bestMove, _, _ => bestMove
  | remaining + 1, e, bestMove, bestScore, k =>
    if ctx.timeUp k then bestMove
    else
      let r := rootLoop ctx (ctx.maxDepth - (remaining + 1)) e (orderMoves legal)
        bestMove (-INF) (k + 1)
      let bm2 := if r.2.2.1 > bestScore then r.2.1 else bestMove
      let bs2 := if r.2.2.1 > bestScore then r.2.2.1 else bestScore
      if r.1 then bm2
      else idLoop ctx legal remaining r.2.2.2.1 bm2 bs2 r.2.2.2.2

/-- Source `findBestMove(engine, difficulty)`.  `randIdx` models the
`Math.random()` pick of the easy policy (an arbitrary valid index), and
`timeUp` is the stream of time-check outcomes. -/
def findBestMove (e : Engine) (difficulty : Difficulty) (randIdx : Nat)
    (timeUp : Nat → Bool) : Option Move :=
  let color := e.turn
  let lg := generateLegalMovesE e color
  match lg.1 with
  | [] => none
  | m0 :: _ =>
    let legal := lg.1
    if difficulty = Difficulty.easy then
      let captures := legal.filter fun m => m.captured.isSome || m.isEnPassant
      let pool := if captures.length ≠ 0 then captures else legal
      some (pool.getD (randIdx % pool.length) m0)
    else
      let maxDepth := if difficulty = Difficulty.hard then 4 else 3
      let ctx : SearchCtx := { timeUp, perspective := color, maxDepth }
      some (idLoop ctx legal maxDepth lg.2 m0 (-INF) 0)

/-- Well-formedness of the en passant target: if set, its square is empty.
Every position reachable by play satisfies this (the target is the square a
pawn just jumped over); `loadFEN` does not enforce it, so it appears as a
hypothesis where the trial-application filter needs it. -/
def epOK (e : Engine) : Bool :=
  match e.ep with
  | none => true
  | some sq => decide (boardGet e.board sq = none)

/-- Facts guaranteed for every en-passant move emitted by
`generatePseudoMoves`. -/
def EpFacts (e : Engine) (m : Move) : Prop :=
  e.ep = some m.toSq ∧
  ∃ cs, m.capturedIndex = some cs ∧ cs < 64 ∧ cs ≠ m.fromSq ∧ cs ≠ m.toSq

/-- Facts guaranteed for every castling move emitted by
`generatePseudoMoves`: one disjunct per color and side, recording the king
and rook squares involved and the emptiness tests of `canCastle`. -/
def CastleFacts (e : Engine) (m : Move) : Prop :=
  (m.piece.color = Color.w ∧ m.castleSide = some CSide.K ∧ m.fromSq = 60 ∧ m.toSq = 62 ∧
    boardGet e.board 61 = none ∧ boardGet e.board 62 = none ∧
    boardGet e.board 63 = some ⟨.w, .r⟩) ∨
  (m.piece.color = Color.w ∧ m.castleSide = some CSide.Q ∧ m.fromSq = 60 ∧ m.toSq = 58 ∧
    boardGet e.board 59 = none ∧ boardGet e.board 58 = none ∧ boardGet e.board 57 = none ∧
    boardGet e.board 56 = some ⟨.w, .r⟩) ∨
  (m.piece.color = Color.b ∧ m.castleSide = some CSide.K ∧ m.fromSq = 4 ∧ m.toSq = 6 ∧
    boardGet e.board 5 = none ∧ boardGet e.board 6 = none ∧
    boardGet e.board 7 = some ⟨.b, .r⟩) ∨
  (m.piece.color = Color.b ∧ m.castleSide = some CSide.Q ∧ m.fromSq = 4 ∧ m.toSq = 2 ∧
    boardGet e.board 3 = none ∧ boardGet e.board 2 = none ∧ boardGet e.board 1 = none ∧
    boardGet e.board 0 = some ⟨.b, .r⟩)

/-- The shape facts `generatePseudoMoves` guarantees for every emitted move;
they are what the apply/revert and hash lemmas consume. -/
def MoveFacts (e : Engine) (c : Color) (m : Move) : Prop :=
  boardGet e.board m.fromSq = some m.piece ∧
  m.piece.color = c ∧
  m.toSq ≠ m.fromSq ∧
  m.toSq < 64 ∧
  ((m.isEnPassant = false ∧ m.isCastle = false) ∨
   (m.isEnPassant = true ∧ m.isCastle = false ∧ EpFacts e m) ∨
   (m.isEnPassant = false ∧ m.isCastle = true ∧ CastleFacts e m))

/-- No castling move among the pseudo moves of the side not to move: the
hypothesis under which `evaluate`'s second `generateLegalMoves` call restores
the engine (see the C9/C10 analysis: `makeMove` relocates the castling rook by
`this.turn`, not by the mover's color). -/
def noNonTurnCastlePseudo (e : Engine) : Bool :=
  (generatePseudoMoves e (opponent e.turn)).all fun m => ! m.isCastle

/-- Well-formedness used by the FEN round-trip claim: both kings occur on the
board, the en passant square (if any) is a real square, and the fullmove
number is at least 1 (all true of every position `loadFEN` accepts). -/
def fenWF (e : Engine) : Bool :=
  decide (∃ i ∈ List.range 64, boardGet e.board i = some ⟨Color.w, PKind.k⟩) &&
  decide (∃ i ∈ List.range 64, boardGet e.board i = some ⟨Color.b, PKind.k⟩) &&
  (match e.ep with
    | none => true
    | some sq => decide (sq < 64)) &&
  decide (1 ≤ e.fullmove)

/-- The `captured` read at the top of `makeMove` (board content, not the
move's own `captured` field). -/
def mCaptured (e : Engine) (m : Move) : Option Piece :=
  if m.isEnPassant then
    match m.capturedIndex with
    | some ci => boardGet e.board ci
    | none => none
  else boardGet e.board m.toSq

/-- The piece `makeMove` places on the destination square. -/
def mPlaced (e : Engine) (m : Move) : Piece :=
  match m.promotion with
  | some pk => if e.turn = Color.w then (⟨.w, pk⟩ : Piece) else ⟨.b, pk⟩
  | none => m.piece

/-- The capture square used by `makeMove` and `unmakeMove`. -/
def mCapSq (m : Move) : Nat :=
  if m.isEnPassant then m.capturedIndex.getD 0 else m.toSq

/-- The en passant target `makeMove` leaves behind. -/
def mNewEp (m : Move) : Option Nat :=
  if m.piece.kind = PKind.p ∧ ((m.toSq : Int) - (m.fromSq : Int)).natAbs = 16 then
    some ((m.toSq + m.fromSq) / 2)
  else none

/-- The Zobrist contribution of one board cell, zero for an empty cell. -/
def cellKey (op : Option Piece) (i : Nat) : Nat :=
  match op with
  | none => 0
  | some pc => ZPiece (pieceIndex pc) i

/-- The board part of `_computeHash`. -/
def boardHash (bd : List (Option Piece)) : Nat :=
  (List.range 64).foldl (fun h i => h ^^^ cellKey (boardGet bd i) i) 0

/-- The side-to-move part of `_computeHash`. -/
def sideKey (c : Color) : Nat := if c = Color.b then ZSide else 0

/-- The en passant part of `_computeHash`. -/
def epKey (ep : Option Nat) : Nat :=
  match ep with
  | none => 0
  | some sq => ZEpFile (fileOf sq)

/-- The board has exactly its 64 cells (true of every engine built by
`loadFEN`). -/
def boardOK (e : Engine) : Bool := e.board.length = 64

/-- Whether a `loadFEN` outcome is a success. -/
def fenOk : Except (String × Engine) Engine → Bool
  | .ok _ => true
  | .error _ => false

/-- The engine state carried by a `loadFEN` outcome: the new state on success,
the state the mutated `this` was left in on failure. -/
def fenState : Except (String × Engine) Engine → Engine
  | .ok e2 => e2
  | .error p => p.2

/-- A reachable K+R-vs-K position: black king e8 (4), black rook h8 (7), white
king e1 (60), black retaining kingside castling rights, white to move.  Black
has the pseudo-move O-O here while it is white\'s turn, the configuration that
exercises `makeMove`\'s rook relocation keyed on `this.turn`. -/
def evalBugEngine : Engine :=
  { board :=
      (((List.replicate 64 (none : Option Piece)).set 4 (some ⟨Color.b, PKind.k⟩)).set 7
        (some ⟨Color.b, PKind.r⟩)).set 60 (some ⟨Color.w, PKind.k⟩),
    turn := Color.w, castling := ⟨false, false, true, false⟩, ep := none,
    halfmove := 0, fullmove := 1, wKing := 60, bKing := 4, hash := 0,
    rep := [], hashLine := [] }

/-- The run-length encoding of a rank's cells with `run` pending empty
squares, the recursive form of `rowFEN`'s fold. -/
def encCells : List (Option Piece) → Nat → List Char
  | [], run => if run ≠ 0 then [natDigitChar run] else []
  | none :: rest, run => encCells rest (run + 1)
  | some pc :: rest, run =>
    (if run ≠ 0 then [natDigitChar run] else []) ++ pieceChar pc :: encCells rest 0

/-- Writing a rank's cells onto the board from file `f` on, the board effect
of `parseRowChars`. -/
def placeCells (r : Nat) : Engine → List (Option Piece) → Nat → Engine
  | e, [], _ => e
  | e, none :: rest, f => placeCells r e rest (f + 1)
  | e, some pc :: rest, f =>
    placeCells r { e with board := e.board.set (r * 8 + f) (some pc) } rest (f + 1)

/-- The king squares tracked while scanning a rank's cells from file `f`, the
king effect of `parseRowChars`. -/
def kingsUpd (r : Nat) : List (Option Piece) → Nat → Option Nat × Option Nat →
    Option Nat × Option Nat
  | [], _, ks => ks
  | none :: rest, f, ks => kingsUpd r rest (f + 1) ks
  | some pc :: rest, f, ks =>
    kingsUpd r rest (f + 1)
      (if pc = ⟨Color.w, PKind.k⟩ then some (r * 8 + f) else ks.1,
       if pc = ⟨Color.b, PKind.k⟩ then some (r * 8 + f) else ks.2)

/-- The eight cells of rank `r`. -/
def rankCells (bd : List (Option Piece)) (r : Nat) : List (Option Piece) :=
  (List.range 8).map fun f => boardGet bd (r * 8 + f)

/-- The iterative-deepening loop as the spec describes it: a time overrun
degrades to the best COMPLETED depth — an aborted iteration\'s partial result
is discarded.  Modelled from the spec\'s words for comparison with `idLoop`,
which is the source\'s behavior. -/
def idLoopSpec (ctx : SearchCtx) (legal : List Move) :
    Nat → Engine → Move → Int → Nat → Move
  | 0, _, bestMove, _, _ => bestMove
  | remaining + 1, e, bestMove, bestScore, k =>
    if ctx.timeUp k then bestMove
    else
      let r := rootLoop ctx (ctx.maxDepth - (remaining + 1)) e (orderMoves legal)
        bestMove (-INF) (k + 1)
      if r.1 then bestMove
      else
        let bm2 := if r.2.2.1 > bestScore then r.2.1 else bestMove
        let bs2 := if r.2.2.1 > bestScore then r.2.2.1 else bestScore
        idLoopSpec ctx legal remaining r.2.2.2.1 bm2 bs2 r.2.2.2.2

/-- `findBestMove` with the spec-described degrade policy (`idLoopSpec` in
place of `idLoop`); identical in every other respect. -/
def findBestMoveSpec (e : Engine) (difficulty : Difficulty) (randIdx : Nat)
    (timeUp : Nat → Bool) : Option Move :=
  let color := e.turn
  let lg := generateLegalMovesE e color
  match lg.1 with
  | [] => none
  | m0 :: _ =>
    let legal := lg.1
    if difficulty = Difficulty.easy then
      let captures := legal.filter fun m => m.captured.isSome || m.isEnPassant
      let pool := if captures.length ≠ 0 then captures else legal
      some (pool.getD (randIdx % pool.length) m0)
    else
      let maxDepth := if difficulty = Difficulty.hard then 4 else 3
      let ctx : SearchCtx := { timeUp, perspective := color, maxDepth }
      some (idLoopSpec ctx legal maxDepth lg.2 m0 (-INF) 0)

/-- The position of FEN `k7/2p5/8/1N6/8/8/8/4K3 w - - 0 1`: black king a8,
black pawn c7, white knight b5, white king e1, white to move. -/
def searchBugEngine : Engine :=
  { board := ((((List.replicate 64 (none : Option Piece)).set 0
      (some ⟨Color.b, PKind.k⟩)).set 10 (some ⟨Color.b, PKind.p⟩)).set 25
      (some ⟨Color.w, PKind.n⟩)).set 60 (some ⟨Color.w, PKind.k⟩),
    turn := Color.w, castling := ⟨false, false, false, false⟩, ep := none,
    halfmove := 0, fullmove := 1, wKing := 60, bKing := 0, hash := 0,
    rep := [], hashLine := [] }

/-! ## Basic lemmas -/

attribute [ext] Engine

theorem fileOf_def (i : Nat) : fileOf i = i % 8 := by
  have := Nat.and_pow_two_sub_one_eq_mod i 3
  simpa [fileOf] using this

theorem rankOf_def (i : Nat) : rankOf i = i / 8 := by
  simpa [rankOf] using Nat.shiftRight_eq_div_pow i 3

theorem boardGet_def (bd : List (Option Piece)) (i : Nat) :
    boardGet bd i = bd[i]?.getD none :=
  List.getD_eq_getElem?_getD bd i none

theorem boardGet_some_iff {bd : List (Option Piece)} {i : Nat} {p : Piece} :
    boardGet bd i = some p ↔ bd[i]? = some (some p) := by
  rw [boardGet_def]
  cases h : bd[i]? with
  | none => simp
  | some v => cases v <;> simp

theorem lt_length_of_boardGet_some {bd : List (Option Piece)} {i : Nat} {p : Piece}
    (h : boardGet bd i = some p) : i < bd.length := by
  rw [boardGet_some_iff] at h
  exact (List.getElem?_eq_some_iff.mp h).1

theorem boardGet_none_iff {bd : List (Option Piece)} {i : Nat} :
    boardGet bd i = none ↔ (bd[i]? = none ∨ bd[i]? = some none) := by
  rw [boardGet_def]
  cases h : bd[i]? with
  | none => simp
  | some v => cases v <;> simp

theorem boardGetI_some {bd : List (Option Piece)} {i : Int} {p : Piece}
    (h : boardGetI bd i = some p) :
    0 ≤ i ∧ i < 64 ∧ boardGet bd i.toNat = some p := by
  unfold boardGetI at h
  split at h
  · rename_i hr
    exact ⟨hr.1, hr.2, by rw [boardGet_def]; rwa [List.getD_eq_getElem?_getD] at h⟩
  · exact absurd h (by simp)

/-! Scalar fields of apply-then-revert are restored verbatim: `unmakeMove`
copies them from the undo record, which snapshots the pre-move engine. -/

theorem unmake_make_turn (e : Engine) (m : Move) (th th2 : Bool) :
    (unmakeMove (makeMove e m th).1 (makeMove e m th).2 th2).turn = e.turn := rfl

theorem unmake_make_castling (e : Engine) (m : Move) (th th2 : Bool) :
    (unmakeMove (makeMove e m th).1 (makeMove e m th).2 th2).castling = e.castling := rfl

theorem unmake_make_ep (e : Engine) (m : Move) (th th2 : Bool) :
    (unmakeMove (makeMove e m th).1 (makeMove e m th).2 th2).ep = e.ep := rfl

theorem unmake_make_halfmove (e : Engine) (m : Move) (th th2 : Bool) :
    (unmakeMove (makeMove e m th).1 (makeMove e m th).2 th2).halfmove = e.halfmove := rfl

theorem unmake_make_fullmove (e : Engine) (m : Move) (th th2 : Bool) :
    (unmakeMove (makeMove e m th).1 (makeMove e m th).2 th2).fullmove = e.fullmove := rfl

theorem unmake_make_hash (e : Engine) (m : Move) (th th2 : Bool) :
    (unmakeMove (makeMove e m th).1 (makeMove e m th).2 th2).hash = e.hash := rfl

theorem unmake_make_wKing (e : Engine) (m : Move) (th th2 : Bool) :
    (unmakeMove (makeMove e m th).1 (makeMove e m th).2 th2).wKing = e.wKing := rfl

theorem unmake_make_bKing (e : Engine) (m : Move) (th th2 : Bool) :
    (unmakeMove (makeMove e m th).1 (makeMove e m th).2 th2).bKing = e.bKing := rfl

theorem unmake_make_rep_false (e : Engine) (m : Move) :
    (unmakeMove (makeMove e m false).1 (makeMove e m false).2 false).rep = e.rep := rfl

theorem unmake_make_hashLine_false (e : Engine) (m : Move) :
    (unmakeMove (makeMove e m false).1 (makeMove e m false).2 false).hashLine = e.hashLine :=
  rfl

/-! ## Projections of `makeMove` -/

theorem makeMove_undo_move (e : Engine) (m : Move) (th : Bool) :
    (makeMove e m th).2.move = m := rfl

theorem makeMove_undo_captured (e : Engine) (m : Move) (th : Bool) :
    (makeMove e m th).2.captured = mCaptured e m := rfl

theorem makeMove_undo_prevTurn (e : Engine) (m : Move) (th : Bool) :
    (makeMove e m th).2.prevTurn = e.turn := rfl

theorem makeMove_board (e : Engine) (m : Move) (th : Bool) :
    (makeMove e m th).1.board =
      (let b1 := e.board.set m.fromSq none
       let b2 :=
         match mCaptured e m with
         | some _ => b1.set (mCapSq m) none
         | none => b1
       let b3 := b2.set m.toSq (some (mPlaced e m))
       match castleRookMv e.turn m with
       | some (rf, rt, rp) => (b3.set rf none).set rt (some rp)
       | none => b3) := rfl

theorem makeMove_turn (e : Engine) (m : Move) (th : Bool) :
    (makeMove e m th).1.turn = opponent e.turn := rfl

theorem unmakeMove_board (e : Engine) (u : Undo) (th : Bool) :
    (unmakeMove e u th).board =
      (let m := u.move
       let b1 := e.board.set m.fromSq (some m.piece)
       let b2 :=
         if m.isCastle then
           if u.prevTurn = Color.w then
             if m.castleSide = some CSide.K then (b1.set 63 (some ⟨.w, .r⟩)).set 61 none
             else (b1.set 56 (some ⟨.w, .r⟩)).set 59 none
           else
             if m.castleSide = some CSide.K then (b1.set 7 (some ⟨.b, .r⟩)).set 5 none
             else (b1.set 0 (some ⟨.b, .r⟩)).set 3 none
         else b1
       let b3 := b2.set m.toSq none
       match u.captured with
       | some cp => b3.set (mCapSq m) (some cp)
       | none => b3) := rfl

/-! ## Apply-then-revert restores the board -/

theorem getElem?_eq_some_none_of {bd : List (Option Piece)} {i : Nat}
    (h : boardGet bd i = none) (hlt : i < bd.length) : bd[i]? = some none := by
  rcases boardGet_none_iff.mp h with h2 | h2
  · rw [List.getElem?_eq_none_iff] at h2
    omega
  · exact h2

theorem getElem?_none_of_ge {bd : List (Option Piece)} {i : Nat}
    (h : ¬ i < bd.length) : bd[i]? = none :=
  List.getElem?_eq_none (by omega)

theorem unmake_make_board (e : Engine) (m : Move) (c : Color) (th th2 : Bool)
    (hf : MoveFacts e c m) (hcastle : m.isCastle = true → c = e.turn)
    (hep : epOK e = true) :
    (unmakeMove (makeMove e m th).1 (makeMove e m th).2 th2).board = e.board := by
  obtain ⟨hpb, hpc, hne, hto64, hcase⟩ := hf
  have hfromE : e.board[m.fromSq]? = some (some m.piece) := boardGet_some_iff.mp hpb
  have hfromLt : m.fromSq < e.board.length := lt_length_of_boardGet_some hpb
  rw [unmakeMove_board]
  simp only [makeMove_undo_move, makeMove_undo_captured, makeMove_undo_prevTurn,
    makeMove_board]
  rcases hcase with ⟨hepF, hcsF⟩ | ⟨hepT, hcsF, hEp⟩ | ⟨hepF, hcsT, hCst⟩
  · -- plain move
    simp only [mCaptured, mCapSq, castleRookMv, hepF, hcsF, Bool.false_eq_true, if_false,
      ite_false, ↓reduceIte]
    rcases hcap : boardGet e.board m.toSq with _ | cp <;> simp only [hcap]
    · apply List.ext_getElem?
      intro n
      simp only [List.getElem?_set, List.length_set]
      split_ifs <;>
        first
          | rfl
          | omega
          | (subst_vars
             first
               | exact (getElem?_eq_some_none_of hcap (by omega)).symm
               | exact (getElem?_none_of_ge (by omega)).symm
               | exact hfromE.symm)
    · apply List.ext_getElem?
      intro n
      simp only [List.getElem?_set, List.length_set]
      split_ifs <;>
        first
          | rfl
          | omega
          | (subst_vars
             first
               | exact (getElem?_none_of_ge (by omega)).symm
               | exact hfromE.symm
               | exact (boardGet_some_iff.mp hcap).symm)
  · -- en passant
    obtain ⟨hepSq, cs, hci, hcs64, hcsFrom, hcsTo⟩ := hEp
    have hepEmpty : boardGet e.board m.toSq = none := by
      unfold epOK at hep
      rw [hepSq] at hep
      simpa using hep
    simp only [mCaptured, mCapSq, castleRookMv, hepT, hcsF, hci, Option.getD_some,
      Bool.false_eq_true, if_false, ite_false, ite_true, ↓reduceIte]
    rcases hcap : boardGet e.board cs with _ | cp <;> simp only [hcap]
    · apply List.ext_getElem?
      intro n
      simp only [List.getElem?_set, List.length_set]
      split_ifs <;>
        first
          | rfl
          | omega
          | (subst_vars
             first
               | exact (getElem?_eq_some_none_of hepEmpty (by omega)).symm
               | exact (getElem?_none_of_ge (by omega)).symm
               | exact hfromE.symm)
    · apply List.ext_getElem?
      intro n
      simp only [List.getElem?_set, List.length_set]
      split_ifs <;>
        first
          | rfl
          | omega
          | (subst_vars
             first
               | exact (getElem?_eq_some_none_of hepEmpty (by omega)).symm
               | exact (getElem?_none_of_ge (by omega)).symm
               | exact hfromE.symm
               | exact (boardGet_some_iff.mp hcap).symm)
  · -- castling
    have hturn : c = e.turn := hcastle hcsT
    rcases hCst with ⟨hcol, hside, hfrom, hto, h1, h2, h3⟩ |
      ⟨hcol, hside, hfrom, hto, h1, h2, h2b, h3⟩ |
      ⟨hcol, hside, hfrom, hto, h1, h2, h3⟩ |
      ⟨hcol, hside, hfrom, hto, h1, h2, h2b, h3⟩
    · -- white king side
      have hturn2 : e.turn = Color.w := by rw [← hturn, ← hpc, hcol]
      rw [hfrom] at hfromE hfromLt
      have hrookE := boardGet_some_iff.mp h3
      have hrookLt := lt_length_of_boardGet_some h3
      simp only [mCaptured, mCapSq, castleRookMv, hcsT, hepF, hside, hturn2, hfrom, hto,
        Bool.false_eq_true, if_false, ite_false, ite_true, ↓reduceIte, reduceCtorEq,
        Option.some.injEq, h2]
      apply List.ext_getElem?
      intro n
      simp only [List.getElem?_set, List.length_set]
      split_ifs <;>
        first
          | rfl
          | omega
          | (subst_vars
             first
               | exact (getElem?_eq_some_none_of h1 (by omega)).symm
               | exact (getElem?_eq_some_none_of h2 (by omega)).symm
               | exact (getElem?_none_of_ge (by omega)).symm
               | exact hfromE.symm
               | exact hrookE.symm)
    · -- white queen side
      have hturn2 : e.turn = Color.w := by rw [← hturn, ← hpc, hcol]
      rw [hfrom] at hfromE hfromLt
      have hrookE := boardGet_some_iff.mp h3
      have hrookLt := lt_length_of_boardGet_some h3
      simp only [mCaptured, mCapSq, castleRookMv, hcsT, hepF, hside, hturn2, hfrom, hto,
        Bool.false_eq_true, if_false, ite_false, ite_true, ↓reduceIte, reduceCtorEq,
        Option.some.injEq, h2]
      apply List.ext_getElem?
      intro n
      simp only [List.getElem?_set, List.length_set]
      split_ifs <;>
        first
          | rfl
          | omega
          | (subst_vars
             first
               | exact (getElem?_eq_some_none_of h1 (by omega)).symm
               | exact (getElem?_eq_some_none_of h2 (by omega)).symm
               | exact (getElem?_eq_some_none_of h2b (by omega)).symm
               | exact (getElem?_none_of_ge (by omega)).symm
               | exact hfromE.symm
               | exact hrookE.symm)
    · -- black king side
      have hturn2 : e.turn = Color.b := by rw [← hturn, ← hpc, hcol]
      have hturnW : ¬ e.turn = Color.w := by rw [hturn2]; intro hx; cases hx
      rw [hfrom] at hfromE hfromLt
      have hrookE := boardGet_some_iff.mp h3
      have hrookLt := lt_length_of_boardGet_some h3
      simp only [mCaptured, mCapSq, castleRookMv, hcsT, hepF, hside, hturn2, hturnW, hfrom,
        hto, Bool.false_eq_true, if_false, ite_false, ite_true, ↓reduceIte, reduceCtorEq,
        Option.some.injEq, h2]
      apply List.ext_getElem?
      intro n
      simp only [List.getElem?_set, List.length_set]
      split_ifs <;>
        first
          | rfl
          | omega
          | (subst_vars
             first
               | exact (getElem?_eq_some_none_of h1 (by omega)).symm
               | exact (getElem?_eq_some_none_of h2 (by omega)).symm
               | exact (getElem?_none_of_ge (by omega)).symm
               | exact hfromE.symm
               | exact hrookE.symm)
    · -- black queen side
      have hturn2 : e.turn = Color.b := by rw [← hturn, ← hpc, hcol]
      have hturnW : ¬ e.turn = Color.w := by rw [hturn2]; intro hx; cases hx
      rw [hfrom] at hfromE hfromLt
      have hrookE := boardGet_some_iff.mp h3
      have hrookLt := lt_length_of_boardGet_some h3
      simp only [mCaptured, mCapSq, castleRookMv, hcsT, hepF, hside, hturn2, hturnW, hfrom,
        hto, Bool.false_eq_true, if_false, ite_false, ite_true, ↓reduceIte, reduceCtorEq,
        Option.some.injEq, h2]
      apply List.ext_getElem?
      intro n
      simp only [List.getElem?_set, List.length_set]
      split_ifs <;>
        first
          | rfl
          | omega
          | (subst_vars
             first
               | exact (getElem?_eq_some_none_of h1 (by omega)).symm
               | exact (getElem?_eq_some_none_of h2 (by omega)).symm
               | exact (getElem?_eq_some_none_of h2b (by omega)).symm
               | exact (getElem?_none_of_ge (by omega)).symm
               | exact hfromE.symm
               | exact hrookE.symm)
theorem toNat_add_ne {f : Nat} {d : Int} (h0 : 0 ≤ (f : Int) + d) (hd : d ≠ 0) :
    ((f : Int) + d).toNat ≠ f := by omega

theorem toNat_lt64 {x : Int} (h : x < 64) (h0 : 0 ≤ x) : x.toNat < 64 := by omega

theorem pawnMovesFrom_facts {e : Engine} {c : Color} {f : Nat} {piece : Piece} {m : Move}
    (hm : m ∈ pawnMovesFrom e c f piece) :
    m.fromSq = f ∧ m.piece = piece ∧ m.toSq ≠ f ∧ m.toSq < 64 ∧
    ((m.isEnPassant = false ∧ m.isCastle = false) ∨
     (m.isEnPassant = true ∧ m.isCastle = false ∧ EpFacts e m)) := by
  simp only [pawnMovesFrom, List.mem_append] at hm
  generalize hF : (if c = Color.w then (-8 : Int) else 8) = F at hm
  generalize hS : (if c = Color.w then (6 : Nat) else 1) = S at hm
  generalize hP : (if c = Color.w then (0 : Nat) else 7) = P at hm
  generalize hD : (if c = Color.w then [(-9 : Int), -7] else [7, 9]) = D at hm
  have hCfg : (F = -8 ∧ S = 6 ∧ P = 0 ∧ D = [-9, -7]) ∨
      (F = 8 ∧ S = 1 ∧ P = 7 ∧ D = [7, 9]) := by
    rcases c with _ | _ <;>
      simp only [reduceCtorEq, if_true, if_false, eq_self_iff_true] at hF hS hP hD
    · exact Or.inl ⟨hF.symm, hS.symm, hP.symm, hD.symm⟩
    · exact Or.inr ⟨hF.symm, hS.symm, hP.symm, hD.symm⟩
  have hF0 : F ≠ 0 := by rcases hCfg with ⟨h, _⟩ | ⟨h, _⟩ <;> omega
  rcases hm with hm | hm
  · -- pushes
    rw [List.mem_ite_nil_right] at hm
    obtain ⟨hrange, hm⟩ := hm
    rw [List.mem_ite_nil_right] at hm
    obtain ⟨hone, hm⟩ := hm
    by_cases hpr : rankOf ((f : Int) + F).toNat = P
    · rw [if_pos hpr] at hm
      simp only [List.mem_map] at hm
      obtain ⟨pr, _, hmm⟩ := hm
      subst hmm
      exact ⟨rfl, rfl, toNat_add_ne hrange.1 hF0, toNat_lt64 hrange.2 hrange.1, Or.inl ⟨rfl, rfl⟩⟩
    · rw [if_neg hpr, List.mem_cons] at hm
      rcases hm with hm | hm
      · subst hm
        exact ⟨rfl, rfl, toNat_add_ne hrange.1 hF0, toNat_lt64 hrange.2 hrange.1, Or.inl ⟨rfl, rfl⟩⟩
      · rw [List.mem_ite_nil_right] at hm
        obtain ⟨⟨hstart, _⟩, hm⟩ := hm
        rw [List.mem_singleton] at hm
        subst hm
        refine ⟨rfl, rfl, ?_, ?_, Or.inl ⟨rfl, rfl⟩⟩ <;>
          [show ((f : Int) + F + F).toNat ≠ f; show ((f : Int) + F + F).toNat < 64] <;>
          (rw [rankOf_def] at hstart
           rcases hCfg with ⟨hF1, hS1, _, _⟩ | ⟨hF1, hS1, _, _⟩ <;> subst hF1 hS1 <;> omega)
  · -- captures
    simp only [List.mem_flatMap] at hm
    obtain ⟨d, hd, hm⟩ := hm
    have hdv : (d = -9 ∨ d = -7 ∨ d = 7 ∨ d = 9) ∧ d ≠ F := by
      rcases hCfg with ⟨hF1, _, _, hD1⟩ | ⟨hF1, _, _, hD1⟩ <;> subst hD1 <;>
        simp only [List.mem_cons, List.not_mem_nil, or_false] at hd <;> omega
    rw [List.mem_ite_nil_right] at hm
    obtain ⟨hrange, hm⟩ := hm
    rw [List.mem_ite_nil_left] at hm
    obtain ⟨hfile, hm⟩ := hm
    have hd0 : d ≠ 0 := by omega
    split at hm
    · -- occupied target
      split at hm
      · -- enemy target: capture or promotion capture
        split at hm
        · simp only [List.mem_map] at hm
          obtain ⟨pr, _, hmm⟩ := hm
          subst hmm
          exact ⟨rfl, rfl, toNat_add_ne hrange.1 hd0, toNat_lt64 hrange.2 hrange.1, Or.inl ⟨rfl, rfl⟩⟩
        · rw [List.mem_singleton] at hm
          subst hm
          exact ⟨rfl, rfl, toNat_add_ne hrange.1 hd0, toNat_lt64 hrange.2 hrange.1, Or.inl ⟨rfl, rfl⟩⟩
      · -- friendly target: en passant branch
        split at hm
        · simp at hm
        · rename_i epSq hepSq
          split at hm
          · rename_i hto
            split at hm
            · simp at hm
            · rename_i capPiece hcapb
              split at hm
              · rw [List.mem_singleton] at hm
                subst hm
                have hcr := boardGetI_some hcapb
                refine ⟨rfl, rfl, toNat_add_ne hrange.1 hd0, toNat_lt64 hrange.2 hrange.1, Or.inr ⟨rfl, rfl, ?_, ?_⟩⟩
                · rw [hepSq, ← hto]
                · refine ⟨((f : Int) + d - F).toNat, rfl, ?_, ?_, ?_⟩
                  · show ((f : Int) + d - F).toNat < 64
                    omega
                  · show ((f : Int) + d - F).toNat ≠ f
                    omega
                  · show ((f : Int) + d - F).toNat ≠ ((f : Int) + d).toNat
                    omega
              · simp at hm
          · simp at hm
    · -- empty target: en passant branch
      split at hm
      · simp at hm
      · rename_i epSq hepSq
        split at hm
        · rename_i hto
          split at hm
          · simp at hm
          · rename_i capPiece hcapb
            split at hm
            · rw [List.mem_singleton] at hm
              subst hm
              have hcr := boardGetI_some hcapb
              refine ⟨rfl, rfl, toNat_add_ne hrange.1 hd0, toNat_lt64 hrange.2 hrange.1, Or.inr ⟨rfl, rfl, ?_, ?_⟩⟩
              · rw [hepSq, ← hto]
              · refine ⟨((f : Int) + d - F).toNat, rfl, ?_, ?_, ?_⟩
                · show ((f : Int) + d - F).toNat < 64
                  omega
                · show ((f : Int) + d - F).toNat ≠ f
                  omega
                · show ((f : Int) + d - F).toNat ≠ ((f : Int) + d).toNat
                  omega
            · simp at hm
        · simp at hm
theorem knightMovesFrom_facts {e : Engine} {c : Color} {f : Nat} {piece : Piece} {m : Move}
    (hm : m ∈ knightMovesFrom e c f piece) :
    m.fromSq = f ∧ m.piece = piece ∧ m.toSq ≠ f ∧ m.toSq < 64 ∧ m.isEnPassant = false ∧
    m.isCastle = false := by
  simp only [knightMovesFrom, List.mem_flatMap] at hm
  obtain ⟨d, hd, hm⟩ := hm
  have hd0 : d ≠ 0 := by
    simp only [List.mem_cons, List.not_mem_nil, or_false] at hd
    rcases hd with rfl | rfl | rfl | rfl | rfl | rfl | rfl | rfl <;> omega
  rw [List.mem_ite_nil_right] at hm
  obtain ⟨hrange, hm⟩ := hm
  rw [List.mem_ite_nil_right] at hm
  obtain ⟨_, hm⟩ := hm
  split at hm
  · rw [List.mem_singleton] at hm
    subst hm
    exact ⟨rfl, rfl, toNat_add_ne hrange.1 hd0, toNat_lt64 hrange.2 hrange.1, rfl, rfl⟩
  · split at hm
    · rw [List.mem_singleton] at hm
      subst hm
      exact ⟨rfl, rfl, toNat_add_ne hrange.1 hd0, toNat_lt64 hrange.2 hrange.1, rfl, rfl⟩
    · simp at hm

theorem slideRay_facts {e : Engine} {c : Color} {f : Nat} {piece : Piece} {d : Int}
    (hd0 : d ≠ 0) :
    ∀ (fuel : Nat) (toI : Int), (0 < d → (f : Int) < toI) → (d < 0 → toI < (f : Int)) →
    ∀ {m : Move}, m ∈ slideRay e c f piece d fuel toI →
      m.fromSq = f ∧ m.piece = piece ∧ m.toSq ≠ f ∧ m.toSq < 64 ∧ m.isEnPassant = false ∧
      m.isCastle = false := by
  intro fuel
  induction fuel with
  | zero =>
    intro toI _ _ m hm
    simp [slideRay] at hm
  | succ n ih =>
    intro toI hpos hneg m hm
    rw [slideRay] at hm
    rw [List.mem_ite_nil_right] at hm
    obtain ⟨hrange, hm⟩ := hm
    rw [List.mem_ite_nil_left] at hm
    obtain ⟨_, hm⟩ := hm
    rw [List.mem_ite_nil_left] at hm
    obtain ⟨_, hm⟩ := hm
    have htne : toI.toNat ≠ f := by omega
    have htlt : toI.toNat < 64 := by omega
    split at hm
    · rcases List.mem_cons.mp hm with hm | hm
      · subst hm
        exact ⟨rfl, rfl, htne, htlt, rfl, rfl⟩
      · exact ih (toI + d) (by omega) (by omega) hm
    · split at hm
      · rw [List.mem_singleton] at hm
        subst hm
        exact ⟨rfl, rfl, htne, htlt, rfl, rfl⟩
      · simp at hm

theorem slideMovesFrom_facts {e : Engine} {c : Color} {f : Nat} {piece : Piece}
    {dirs : List Int} {m : Move} (hdirs : ∀ d ∈ dirs, d ≠ 0)
    (hm : m ∈ slideMovesFrom e c f piece dirs) :
    m.fromSq = f ∧ m.piece = piece ∧ m.toSq ≠ f ∧ m.toSq < 64 ∧ m.isEnPassant = false ∧
    m.isCastle = false := by
  simp only [slideMovesFrom, List.mem_flatMap] at hm
  obtain ⟨d, hd, hm⟩ := hm
  have hd0 := hdirs d hd
  exact slideRay_facts hd0 64 ((f : Int) + d) (by omega) (by omega) hm

theorem canCastle_facts {e : Engine} {c : Color} {f : Nat} {side : CSide}
    (h : canCastle e c f side = true) :
    (c = Color.w ∧ f = 60 ∧
      ((side = CSide.K ∧ boardGet e.board 61 = none ∧ boardGet e.board 62 = none ∧
         boardGet e.board 63 = some ⟨.w, .r⟩) ∨
       (side = CSide.Q ∧ boardGet e.board 59 = none ∧ boardGet e.board 58 = none ∧
         boardGet e.board 57 = none ∧ boardGet e.board 56 = some ⟨.w, .r⟩))) ∨
    (c = Color.b ∧ f = 4 ∧
      ((side = CSide.K ∧ boardGet e.board 5 = none ∧ boardGet e.board 6 = none ∧
         boardGet e.board 7 = some ⟨.b, .r⟩) ∨
       (side = CSide.Q ∧ boardGet e.board 3 = none ∧ boardGet e.board 2 = none ∧
         boardGet e.board 1 = none ∧ boardGet e.board 0 = some ⟨.b, .r⟩))) := by
  rcases c with _ | _ <;> rcases side with _ | _ <;>
    simp only [canCastle, reduceCtorEq, false_and, and_false, if_false, eq_self_iff_true,
      true_and, and_true, if_true] at h
  · split_ifs at h with hf hchk hck hbd hrook hatt <;>
      first
        | exact Bool.noConfusion h
        | exact Or.inl ⟨rfl, by omega, Or.inl ⟨rfl, not_ne_iff.mp (not_or.mp hbd).1,
            not_ne_iff.mp (not_or.mp hbd).2, not_ne_iff.mp hrook⟩⟩
  · split_ifs at h with hf hchk hck hbd hrook hatt <;>
      first
        | exact Bool.noConfusion h
        | exact Or.inl ⟨rfl, by omega, Or.inr ⟨rfl, not_ne_iff.mp (not_or.mp hbd).1,
            not_ne_iff.mp (not_or.mp (not_or.mp hbd).2).1,
            not_ne_iff.mp (not_or.mp (not_or.mp hbd).2).2, not_ne_iff.mp hrook⟩⟩
  · split_ifs at h with hf hchk hck hbd hrook hatt <;>
      first
        | exact Bool.noConfusion h
        | exact Or.inr ⟨rfl, by omega, Or.inl ⟨rfl, not_ne_iff.mp (not_or.mp hbd).1,
            not_ne_iff.mp (not_or.mp hbd).2, not_ne_iff.mp hrook⟩⟩
  · split_ifs at h with hf hchk hck hbd hrook hatt <;>
      first
        | exact Bool.noConfusion h
        | exact Or.inr ⟨rfl, by omega, Or.inr ⟨rfl, not_ne_iff.mp (not_or.mp hbd).1,
            not_ne_iff.mp (not_or.mp (not_or.mp hbd).2).1,
            not_ne_iff.mp (not_or.mp (not_or.mp hbd).2).2, not_ne_iff.mp hrook⟩⟩

theorem kingMovesFrom_facts {e : Engine} {c : Color} {f : Nat} {piece : Piece} {m : Move}
    (hcol : piece.color = c) (hm : m ∈ kingMovesFrom e c f piece) :
    m.fromSq = f ∧ m.piece = piece ∧ m.toSq ≠ f ∧ m.toSq < 64 ∧
    ((m.isEnPassant = false ∧ m.isCastle = false) ∨
     (m.isEnPassant = false ∧ m.isCastle = true ∧ CastleFacts e m)) := by
  simp only [kingMovesFrom, List.mem_append] at hm
  rcases hm with (hm | hm) | hm
  · -- step moves
    simp only [List.mem_flatMap] at hm
    obtain ⟨d, hd, hm⟩ := hm
    have hd0 : d ≠ 0 := by
      simp only [List.mem_cons, List.not_mem_nil, or_false] at hd
      rcases hd with rfl | rfl | rfl | rfl | rfl | rfl | rfl | rfl <;> omega
    rw [List.mem_ite_nil_right] at hm
    obtain ⟨hrange, hm⟩ := hm
    rw [List.mem_ite_nil_left] at hm
    obtain ⟨_, hm⟩ := hm
    split at hm
    · rw [List.mem_singleton] at hm
      subst hm
      exact ⟨rfl, rfl, toNat_add_ne hrange.1 hd0, toNat_lt64 hrange.2 hrange.1, Or.inl ⟨rfl, rfl⟩⟩
    · split at hm
      · rw [List.mem_singleton] at hm
        subst hm
        exact ⟨rfl, rfl, toNat_add_ne hrange.1 hd0, toNat_lt64 hrange.2 hrange.1, Or.inl ⟨rfl, rfl⟩⟩
      · simp at hm
  · -- king-side castle
    rw [List.mem_ite_nil_right] at hm
    obtain ⟨hcc, hm⟩ := hm
    rw [List.mem_singleton] at hm
    subst hm
    rcases canCastle_facts hcc with ⟨hcw, hf, hside⟩ | ⟨hcb, hf, hside⟩ <;>
      subst hf
    · rcases hside with ⟨_, hb1, hb2, hb3⟩ | ⟨hbad, _⟩
      · subst hcw
        refine ⟨rfl, rfl, by simp, by simp, Or.inr ⟨rfl, rfl, Or.inl ⟨hcol, rfl, rfl, by simp, hb1, hb2, hb3⟩⟩⟩
      · cases hbad
    · rcases hside with ⟨_, hb1, hb2, hb3⟩ | ⟨hbad, _⟩
      · subst hcb
        refine ⟨rfl, rfl, by simp, by simp, Or.inr ⟨rfl, rfl, Or.inr (Or.inr (Or.inl ⟨hcol, rfl, rfl, by simp, hb1, hb2, hb3⟩))⟩⟩
      · cases hbad
  · -- queen-side castle
    rw [List.mem_ite_nil_right] at hm
    obtain ⟨hcc, hm⟩ := hm
    rw [List.mem_singleton] at hm
    subst hm
    rcases canCastle_facts hcc with ⟨hcw, hf, hside⟩ | ⟨hcb, hf, hside⟩ <;>
      subst hf
    · rcases hside with ⟨hbad, _⟩ | ⟨_, hb1, hb2, hb3, hb4⟩
      · cases hbad
      · subst hcw
        refine ⟨rfl, rfl, by simp, by simp, Or.inr ⟨rfl, rfl, Or.inr (Or.inl ⟨hcol, rfl, rfl, by simp, hb1, hb2, hb3, hb4⟩)⟩⟩
    · rcases hside with ⟨hbad, _⟩ | ⟨_, hb1, hb2, hb3, hb4⟩
      · cases hbad
      · subst hcb
        refine ⟨rfl, rfl, by simp, by simp, Or.inr ⟨rfl, rfl, Or.inr (Or.inr (Or.inr ⟨hcol, rfl, rfl, by simp, hb1, hb2, hb3, hb4⟩))⟩⟩

theorem pseudoMovesFrom_facts {e : Engine} {c : Color} {f : Nat} {m : Move}
    (hm : m ∈ pseudoMovesFrom e c f) : MoveFacts e c m := by
  unfold pseudoMovesFrom at hm
  split at hm
  · simp at hm
  · rename_i piece heq
    rw [List.mem_ite_nil_left] at hm
    obtain ⟨hcol, hm⟩ := hm
    have hcol2 : piece.color = c := not_not.mp hcol
    split at hm
    · obtain ⟨h1, h2, h3, h3b, h4⟩ := pawnMovesFrom_facts hm
      refine ⟨by rw [h1, h2]; exact heq, by rw [h2]; exact hcol2, by rw [h1]; exact h3, h3b, ?_⟩
      rcases h4 with h4 | h4
      · exact Or.inl h4
      · exact Or.inr (Or.inl h4)
    · obtain ⟨h1, h2, h3, h3b, h4, h5⟩ := knightMovesFrom_facts hm
      exact ⟨by rw [h1, h2]; exact heq, by rw [h2]; exact hcol2, by rw [h1]; exact h3, h3b,
        Or.inl ⟨h4, h5⟩⟩
    · obtain ⟨h1, h2, h3, h3b, h4, h5⟩ := slideMovesFrom_facts (by decide) hm
      exact ⟨by rw [h1, h2]; exact heq, by rw [h2]; exact hcol2, by rw [h1]; exact h3, h3b,
        Or.inl ⟨h4, h5⟩⟩
    · obtain ⟨h1, h2, h3, h3b, h4, h5⟩ := slideMovesFrom_facts (by decide) hm
      exact ⟨by rw [h1, h2]; exact heq, by rw [h2]; exact hcol2, by rw [h1]; exact h3, h3b,
        Or.inl ⟨h4, h5⟩⟩
    · obtain ⟨h1, h2, h3, h3b, h4, h5⟩ := slideMovesFrom_facts (by decide) hm
      exact ⟨by rw [h1, h2]; exact heq, by rw [h2]; exact hcol2, by rw [h1]; exact h3, h3b,
        Or.inl ⟨h4, h5⟩⟩
    · obtain ⟨h1, h2, h3, h3b, h4⟩ := kingMovesFrom_facts hcol2 hm
      refine ⟨by rw [h1, h2]; exact heq, by rw [h2]; exact hcol2, by rw [h1]; exact h3, h3b, ?_⟩
      rcases h4 with h4 | h4
      · exact Or.inl h4
      · exact Or.inr (Or.inr h4)

theorem pseudo_moveFacts {e : Engine} {c : Color} {m : Move}
    (hm : m ∈ generatePseudoMoves e c) : MoveFacts e c m := by
  simp only [generatePseudoMoves, List.mem_flatMap] at hm
  obtain ⟨f, _, hm⟩ := hm
  exact pseudoMovesFrom_facts hm
/-! ## Full apply-then-revert identity -/

theorem unmake_make_id (e : Engine) (m : Move) (c : Color)
    (hf : MoveFacts e c m) (hcastle : m.isCastle = true → c = e.turn)
    (hep : epOK e = true) :
    unmakeMove (makeMove e m false).1 (makeMove e m false).2 false = e := by
  ext1
  · exact unmake_make_board e m c false false hf hcastle hep
  · exact unmake_make_turn e m false false
  · exact unmake_make_castling e m false false
  · exact unmake_make_ep e m false false
  · exact unmake_make_halfmove e m false false
  · exact unmake_make_fullmove e m false false
  · exact unmake_make_wKing e m false false
  · exact unmake_make_bKing e m false false
  · exact unmake_make_hash e m false false
  · exact unmake_make_rep_false e m
  · exact unmake_make_hashLine_false e m

/-! ## The trial-application filter of `generateLegalMoves` -/

theorem legalE_foldl (e : Engine) (c : Color) (l : List Move) (acc : List Move)
    (hl : ∀ m ∈ l, unmakeMove (makeMove e m false).1 (makeMove e m false).2 false = e) :
    l.foldl
      (fun acc m =>
        let mk := makeMove acc.2 m false
        let ok := ¬ inCheck mk.1 c
        let e2 := unmakeMove mk.1 mk.2 false
        (if ok then acc.1 ++ [m] else acc.1, e2))
      (acc, e) =
    (acc ++ l.filter (fun m => ! inCheck (makeMove e m false).1 c), e) := by
  induction l generalizing acc with
  | nil => simp
  | cons m rest ih =>
    have hm := hl m (by simp)
    simp only [List.foldl_cons, hm, List.filter_cons]
    rcases hchk : inCheck (makeMove e m false).1 c with _ | _
    · simp only [hchk, Bool.not_false, if_pos, ite_true]
      rw [ih _ (fun m2 hm2 => hl m2 (List.mem_cons_of_mem _ hm2))]
      simp
    · simp only [hchk, Bool.not_true, if_neg, ite_false]
      rw [ih _ (fun m2 hm2 => hl m2 (List.mem_cons_of_mem _ hm2))]
      simp

theorem generateLegalMovesE_eq (e : Engine) (c : Color)
    (hep : epOK e = true)
    (hcst : ∀ m ∈ generatePseudoMoves e c, m.isCastle = true → c = e.turn) :
    generateLegalMovesE e c =
      ((generatePseudoMoves e c).filter
        (fun m => ! inCheck (makeMove e m false).1 c), e) := by
  unfold generateLegalMovesE
  rw [legalE_foldl e c _ []
    (fun m hm => unmake_make_id e m c (pseudo_moveFacts hm) (hcst m hm) hep)]
  simp

theorem generateLegalMoves_eq (e : Engine) (c : Color)
    (hep : epOK e = true)
    (hcst : ∀ m ∈ generatePseudoMoves e c, m.isCastle = true → c = e.turn) :
    generateLegalMoves e c =
      (generatePseudoMoves e c).filter (fun m => ! inCheck (makeMove e m false).1 c) := by
  unfold generateLegalMoves
  rw [generateLegalMovesE_eq e c hep hcst]
theorem inCheck_make_track (e : Engine) (m : Move) (c : Color) :
    inCheck (makeMove e m true).1 c = inCheck (makeMove e m false).1 c := rfl

theorem mem_legal_iff (e : Engine) (c : Color) (m : Move)
    (hep : epOK e = true)
    (hcst : ∀ m2 ∈ generatePseudoMoves e c, m2.isCastle = true → c = e.turn) :
    m ∈ generateLegalMoves e c ↔
      m ∈ generatePseudoMoves e c ∧ inCheck (makeMove e m false).1 c = false := by
  rw [generateLegalMoves_eq e c hep hcst, List.mem_filter]
  simp

/-- C1: for every position whose en passant target square (if any) is empty
and in which castling pseudo moves occur only for the side to move, every move
returned by `generateLegalMoves(color)` leaves `color` out of check after
`makeMove`, and every pseudo move not returned leaves `color` in check. -/
theorem C1_check_safety (e : Engine) (color : Color) (m : Move)
    (hep : epOK e = true)
    (hcst : ∀ m2 ∈ generatePseudoMoves e color, m2.isCastle = true → color = e.turn) :
    (m ∈ generateLegalMoves e color → inCheck (makeMove e m true).1 color = false) ∧
    (m ∈ generatePseudoMoves e color → m ∉ generateLegalMoves e color →
      inCheck (makeMove e m true).1 color = true) := by
  constructor
  · intro hm
    rw [inCheck_make_track]
    exact ((mem_legal_iff e color m hep hcst).mp hm).2
  · intro hps hm
    rw [inCheck_make_track]
    rcases hchk : inCheck (makeMove e m false).1 color with _ | _
    · exact absurd ((mem_legal_iff e color m hep hcst).mpr ⟨hps, hchk⟩) hm
    · rfl

theorem C1_check_safety_witness :
    inCheck
      (makeMove startEngine
        { fromSq := 48, toSq := 40, piece := ⟨Color.w, PKind.p⟩, captured := none,
          capturedIndex := none, promotion := none, isCastle := false, castleSide := none,
          isEnPassant := false, isDoublePawn := false } true).1 Color.w = false :=
  (C1_check_safety startEngine Color.w
    { fromSq := 48, toSq := 40, piece := ⟨Color.w, PKind.p⟩, captured := none,
      capturedIndex := none, promotion := none, isCastle := false, castleSide := none,
      isEnPassant := false, isDoublePawn := false } (by decide) (by decide)).1 (by decide)

/-- C2: applying a legal move of the side to move with `makeMove` and
immediately reverting with the returned undo record restores board, castling
rights, en passant target, halfmove clock, fullmove number, hash, and both
cached king squares exactly (position well-formed: en passant square empty if
set). -/
theorem C2_apply_revert (e : Engine) (m : Move)
    (hep : epOK e = true) (hm : m ∈ generateLegalMoves e e.turn) :
    (unmakeMove (makeMove e m true).1 (makeMove e m true).2 true).board = e.board ∧
    (unmakeMove (makeMove e m true).1 (makeMove e m true).2 true).castling = e.castling ∧
    (unmakeMove (makeMove e m true).1 (makeMove e m true).2 true).ep = e.ep ∧
    (unmakeMove (makeMove e m true).1 (makeMove e m true).2 true).halfmove = e.halfmove ∧
    (unmakeMove (makeMove e m true).1 (makeMove e m true).2 true).fullmove = e.fullmove ∧
    (unmakeMove (makeMove e m true).1 (makeMove e m true).2 true).hash = e.hash ∧
    (unmakeMove (makeMove e m true).1 (makeMove e m true).2 true).wKing = e.wKing ∧
    (unmakeMove (makeMove e m true).1 (makeMove e m true).2 true).bKing = e.bKing := by
  have hps : m ∈ generatePseudoMoves e e.turn :=
    ((mem_legal_iff e e.turn m hep (fun _ _ _ => rfl)).mp hm).1
  refine ⟨?_, rfl, rfl, rfl, rfl, rfl, rfl, rfl⟩
  exact unmake_make_board e m e.turn true true (pseudo_moveFacts hps) (fun _ => rfl) hep

theorem C2_apply_revert_witness :
    (unmakeMove
      (makeMove startEngine
        { fromSq := 48, toSq := 40, piece := ⟨Color.w, PKind.p⟩, captured := none,
          capturedIndex := none, promotion := none, isCastle := false, castleSide := none,
          isEnPassant := false, isDoublePawn := false } true).1
      (makeMove startEngine
        { fromSq := 48, toSq := 40, piece := ⟨Color.w, PKind.p⟩, captured := none,
          capturedIndex := none, promotion := none, isCastle := false, castleSide := none,
          isEnPassant := false, isDoublePawn := false } true).2 true).board =
      startEngine.board :=
  (C2_apply_revert startEngine
    { fromSq := 48, toSq := 40, piece := ⟨Color.w, PKind.p⟩, captured := none,
      capturedIndex := none, promotion := none, isCastle := false, castleSide := none,
      isEnPassant := false, isDoublePawn := false } (by decide) (by decide)).1
/-! ## Xor-fold lemmas for the incremental hash -/

theorem xorFold_ext (g1 g2 : Nat → Nat) :
    ∀ (l : List Nat), (∀ j ∈ l, g1 j = g2 j) →
    ∀ h, l.foldl (fun a j => a ^^^ g1 j) h = l.foldl (fun a j => a ^^^ g2 j) h := by
  intro l
  induction l with
  | nil => intro _ h; rfl
  | cons j rest ih =>
    intro hj h
    simp only [List.foldl_cons]
    rw [hj j (by simp), ih (fun x hx => hj x (by simp [hx]))]

theorem xorFold_init (g : Nat → Nat) :
    ∀ (l : List Nat) (h x : Nat),
    l.foldl (fun a j => a ^^^ g j) (h ^^^ x) = l.foldl (fun a j => a ^^^ g j) h ^^^ x := by
  intro l
  induction l with
  | nil => intro h x; rfl
  | cons j rest ih =>
    intro h x
    simp only [List.foldl_cons]
    rw [show h ^^^ x ^^^ g j = h ^^^ g j ^^^ x by
      rw [Nat.xor_assoc, Nat.xor_assoc, Nat.xor_comm x (g j)], ih]

theorem xorFold_update (g1 g2 : Nat → Nat) (i : Nat) :
    ∀ (l : List Nat), i ∈ l → l.Nodup → (∀ j ∈ l, j ≠ i → g1 j = g2 j) →
    ∀ h, l.foldl (fun a j => a ^^^ g2 j) h =
      (l.foldl (fun a j => a ^^^ g1 j) h ^^^ g1 i) ^^^ g2 i := by
  intro l
  induction l with
  | nil => intro hi; simp at hi
  | cons j rest ih =>
    intro hi hnd hcong h
    simp only [List.foldl_cons]
    rcases List.mem_cons.mp hi with rfl | hi2
    · have hrest : ∀ x ∈ rest, g1 x = g2 x := by
        intro x hx
        exact hcong x (by simp [hx]) (by rintro rfl; exact (List.nodup_cons.mp hnd).1 hx)
      rw [← xorFold_ext g1 g2 rest hrest]
      rw [xorFold_init, xorFold_init, Nat.xor_assoc, Nat.xor_assoc, Nat.xor_cancel_left]
    · have hji : j ≠ i := by rintro rfl; exact (List.nodup_cons.mp hnd).1 hi2
      rw [hcong j (by simp) hji]
      exact ih hi2 (List.nodup_cons.mp hnd).2
        (fun x hx hxi => hcong x (by simp [hx]) hxi) (h ^^^ g2 j)

theorem boardGet_set_self {bd : List (Option Piece)} {i : Nat} (h : i < bd.length)
    (v : Option Piece) : boardGet (bd.set i v) i = v := by
  rw [boardGet_def, List.getElem?_set]
  simp [h]

theorem boardGet_set_ne {bd : List (Option Piece)} {i j : Nat} (h : i ≠ j)
    (v : Option Piece) : boardGet (bd.set i v) j = boardGet bd j := by
  rw [boardGet_def, boardGet_def, List.getElem?_set_ne h]

theorem boardHash_set (bd : List (Option Piece)) (i : Nat) (v : Option Piece)
    (hlen : i < bd.length) (h64 : i < 64) :
    boardHash (bd.set i v) =
      (boardHash bd ^^^ cellKey (boardGet bd i) i) ^^^ cellKey v i := by
  unfold boardHash
  rw [xorFold_update (fun j => cellKey (boardGet bd j) j)
    (fun j => cellKey (boardGet (bd.set i v) j) j) i (List.range 64)
    (List.mem_range.mpr h64) (List.nodup_range 64)
    (fun j _ hji => by
      show cellKey (boardGet bd j) j = cellKey (boardGet (bd.set i v) j) j
      rw [boardGet_set_ne (fun hh => hji hh.symm)])]
  rw [boardGet_set_self hlen]

theorem computeHash_eq (e : Engine) :
    computeHash e =
      ((boardHash e.board ^^^ sideKey e.turn) ^^^
        ZCastle (castleMaskFromRights e.castling)) ^^^ epKey e.ep := by
  unfold computeHash
  have hfold : ∀ (l : List Nat) (h : Nat),
      l.foldl
        (fun h i =>
          match boardGet e.board i with
          | none => h
          | some pc => h ^^^ ZPiece (pieceIndex pc) i) h =
      l.foldl (fun a j => a ^^^ cellKey (boardGet e.board j) j) h := by
    intro l
    induction l with
    | nil => intro h; rfl
    | cons j rest ih =>
      intro h
      simp only [List.foldl_cons]
      rw [ih]
      congr 1
      rcases boardGet e.board j with _ | pc
      · simp [cellKey]
      · rfl
  rw [hfold (List.range 64) 0]
  dsimp only
  have hside : ∀ (x : Nat), (if e.turn = Color.b then x ^^^ ZSide else x) = x ^^^ sideKey e.turn := by
    intro x
    unfold sideKey
    rcases e.turn with _ | _ <;> simp
  rw [hside]
  rcases hepv : e.ep with _ | sq
  · simp [epKey, boardHash]
  · simp [epKey, boardHash]

theorem makeMove_castling_eq (e : Engine) (m : Move) (th : Bool) :
    (makeMove e m th).1.castling =
      updateCastlingRightsAfterMove e.castling m.fromSq m.toSq m.piece (mCaptured e m) := rfl

theorem makeMove_ep_eq (e : Engine) (m : Move) (th : Bool) :
    (makeMove e m th).1.ep = mNewEp m := rfl

theorem makeMove_hash_raw (e : Engine) (m : Move) (th : Bool) :
    (makeMove e m th).1.hash =
      (let captured := mCaptured e m
       let h1 :=
         match e.ep with
         | some epSq => e.hash ^^^ ZEpFile (fileOf epSq)
         | none => e.hash
       let h2 := h1 ^^^ ZCastle (castleMaskFromRights e.castling)
       let h3 := h2 ^^^ ZPiece (pieceIndex m.piece) m.fromSq
       let h4 :=
         match captured with
         | some cp => h3 ^^^ ZPiece (pieceIndex cp) (mCapSq m)
         | none => h3
       let h5 := h4 ^^^ ZPiece (pieceIndex (mPlaced e m)) m.toSq
       let h6 :=
         match castleRookMv e.turn m with
         | some (rf, rt, rp) => (h5 ^^^ ZPiece (pieceIndex rp) rf) ^^^ ZPiece (pieceIndex rp) rt
         | none => h5
       let cast2 := updateCastlingRightsAfterMove e.castling m.fromSq m.toSq m.piece captured
       let h7 := h6 ^^^ ZCastle (castleMaskFromRights cast2)
       let h8 :=
         match mNewEp m with
         | some sq => h7 ^^^ ZEpFile (fileOf sq)
         | none => h7
       h8 ^^^ ZSide) := rfl

theorem sideKey_opponent (c : Color) : sideKey (opponent c) = sideKey c ^^^ ZSide := by
  rcases c with _ | _ <;> simp [sideKey, opponent]

theorem epKey_match (x : Nat) (ep : Option Nat) :
    (match ep with
      | some epSq => x ^^^ ZEpFile (fileOf epSq)
      | none => x) = x ^^^ epKey ep := by
  rcases ep with _ | sq <;> simp [epKey]

theorem xor_left_comm (a b c : Nat) : a ^^^ (b ^^^ c) = b ^^^ (a ^^^ c) := by
  rw [← Nat.xor_assoc, Nat.xor_comm a b, Nat.xor_assoc]

theorem makeMove_hash (e : Engine) (m : Move) (th : Bool)
    (hf : MoveFacts e e.turn m) (hep : epOK e = true)
    (hlen : e.board.length = 64) (hinv : e.hash = computeHash e) :
    (makeMove e m th).1.hash = computeHash (makeMove e m th).1 := by
  obtain ⟨hpb, hpc, hne, hto64, hcase⟩ := hf
  have hfromLt : m.fromSq < e.board.length := lt_length_of_boardGet_some hpb
  have hfrom64 : m.fromSq < 64 := by omega
  have htoLt : m.toSq < e.board.length := by omega
  rw [makeMove_hash_raw, computeHash_eq, makeMove_castling_eq, makeMove_ep_eq,
    makeMove_turn, makeMove_board, sideKey_opponent]
  dsimp only
  rw [epKey_match, epKey_match, hinv, computeHash_eq]
  rcases hcase with ⟨hepF, hcsF⟩ | ⟨hepT, hcsF, hEpF⟩ | ⟨hepF, hcsT, hCst⟩
  · -- plain move
    simp only [mCaptured, mCapSq, castleRookMv, hepF, hcsF, Bool.false_eq_true, if_false,
      ite_false, ↓reduceIte]
    rcases hcap : boardGet e.board m.toSq with _ | cp <;> simp only [hcap]
    · rw [boardHash_set (e.board.set m.fromSq none) m.toSq (some (mPlaced e m))
        (by simpa using htoLt) hto64,
        boardGet_set_ne (fun hh => hne hh.symm),
        boardHash_set e.board m.fromSq none hfromLt hfrom64, hcap, hpb]
      simp only [cellKey, Nat.xor_zero]
      simp [Nat.xor_assoc, Nat.xor_comm, xor_left_comm, Nat.xor_self, Nat.xor_zero,
        Nat.zero_xor, Nat.xor_cancel_left]
    · rw [boardHash_set ((e.board.set m.fromSq none).set m.toSq none) m.toSq
        (some (mPlaced e m)) (by simpa using htoLt) hto64,
        boardGet_set_self (by simpa using htoLt),
        boardHash_set (e.board.set m.fromSq none) m.toSq none (by simpa using htoLt) hto64,
        boardGet_set_ne (fun hh => hne hh.symm), hcap,
        boardHash_set e.board m.fromSq none hfromLt hfrom64, hpb]
      simp only [cellKey, Nat.xor_zero]
      simp [Nat.xor_assoc, Nat.xor_comm, xor_left_comm, Nat.xor_self, Nat.xor_zero,
        Nat.zero_xor, Nat.xor_cancel_left]
  · -- en passant
    obtain ⟨hepSq, cs, hci, hcs64, hcsFrom, hcsTo⟩ := hEpF
    have hcsLt : cs < e.board.length := by omega
    have hepEmpty : boardGet e.board m.toSq = none := by
      unfold epOK at hep
      rw [hepSq] at hep
      simpa using hep
    simp only [mCaptured, mCapSq, castleRookMv, hepT, hcsF, hci, Option.getD_some,
      Bool.false_eq_true, if_false, ite_false, ite_true, ↓reduceIte]
    rcases hcap : boardGet e.board cs with _ | cp <;> simp only [hcap]
    · rw [boardHash_set (e.board.set m.fromSq none) m.toSq (some (mPlaced e m))
        (by simpa using htoLt) hto64,
        boardGet_set_ne (fun hh => hne hh.symm), hepEmpty,
        boardHash_set e.board m.fromSq none hfromLt hfrom64, hpb]
      simp only [cellKey, Nat.xor_zero]
      simp [Nat.xor_assoc, Nat.xor_comm, xor_left_comm, Nat.xor_self, Nat.xor_zero,
        Nat.zero_xor, Nat.xor_cancel_left]
    · rw [boardHash_set ((e.board.set m.fromSq none).set cs none) m.toSq
        (some (mPlaced e m)) (by simpa using htoLt) hto64,
        boardGet_set_ne hcsTo,
        boardGet_set_ne (fun hh => hne hh.symm), hepEmpty,
        boardHash_set (e.board.set m.fromSq none) cs none (by simpa using hcsLt) hcs64,
        boardGet_set_ne (fun hh => hcsFrom hh.symm), hcap,
        boardHash_set e.board m.fromSq none hfromLt hfrom64, hpb]
      simp only [cellKey, Nat.xor_zero]
      simp [Nat.xor_assoc, Nat.xor_comm, xor_left_comm, Nat.xor_self, Nat.xor_zero,
        Nat.zero_xor, Nat.xor_cancel_left]
  · -- castling
    rcases hCst with ⟨hcol, hside, hfrom, hto, h1, h2, h3⟩ |
      ⟨hcol, hside, hfrom, hto, h1, h2, h2b, h3⟩ |
      ⟨hcol, hside, hfrom, hto, h1, h2, h3⟩ |
      ⟨hcol, hside, hfrom, hto, h1, h2, h2b, h3⟩ <;>
      (have hturn2 : e.turn = m.piece.color := hpc.symm
       rw [hfrom] at hpb hfromLt hfrom64
       rw [hto] at htoLt hto64
       have hrookLt := lt_length_of_boardGet_some h3) <;>
      simp only [castleRookMv, hcsT, hturn2, hcol, hside, mCaptured, mCapSq, hepF,
        Bool.false_eq_true, if_false, ite_false, ite_true, ↓reduceIte, reduceCtorEq,
        Option.some.injEq, hfrom, hto, h2]
    · -- white king side: squares 60 → 62, rook 63 → 61
      rw [boardHash_set ((((e.board.set 60 none).set 62 (some (mPlaced e m))).set 63 none))
          61 (some ⟨.w, .r⟩) (by simpa using (by omega : (61 : Nat) < e.board.length))
          (by omega),
        boardGet_set_ne (by omega),
        boardGet_set_ne (by omega),
        boardGet_set_ne (by omega), h1,
        boardHash_set (((e.board.set 60 none).set 62 (some (mPlaced e m)))) 63 none
          (by simpa using (by omega : (63 : Nat) < e.board.length)) (by omega),
        boardGet_set_ne (by omega),
        boardGet_set_ne (by omega), h3,
        boardHash_set ((e.board.set 60 none)) 62 (some (mPlaced e m))
          (by simpa using htoLt) (by omega),
        boardGet_set_ne (by omega), h2,
        boardHash_set e.board 60 none hfromLt (by omega), hpb]
      simp only [cellKey, Nat.xor_zero]
      simp [Nat.xor_assoc, Nat.xor_comm, xor_left_comm, Nat.xor_self, Nat.xor_zero,
        Nat.zero_xor, Nat.xor_cancel_left]
    · -- white queen side: 60 → 58, rook 56 → 59
      rw [boardHash_set ((((e.board.set 60 none).set 58 (some (mPlaced e m))).set 56 none))
          59 (some ⟨.w, .r⟩) (by simpa using (by omega : (59 : Nat) < e.board.length))
          (by omega),
        boardGet_set_ne (by omega),
        boardGet_set_ne (by omega),
        boardGet_set_ne (by omega), h1,
        boardHash_set (((e.board.set 60 none).set 58 (some (mPlaced e m)))) 56 none
          (by simpa using (by omega : (56 : Nat) < e.board.length)) (by omega),
        boardGet_set_ne (by omega),
        boardGet_set_ne (by omega), h3,
        boardHash_set ((e.board.set 60 none)) 58 (some (mPlaced e m))
          (by simpa using htoLt) (by omega),
        boardGet_set_ne (by omega), h2,
        boardHash_set e.board 60 none hfromLt (by omega), hpb]
      simp only [cellKey, Nat.xor_zero]
      simp [Nat.xor_assoc, Nat.xor_comm, xor_left_comm, Nat.xor_self, Nat.xor_zero,
        Nat.zero_xor, Nat.xor_cancel_left]
    · -- black king side: 4 → 6, rook 7 → 5
      rw [boardHash_set ((((e.board.set 4 none).set 6 (some (mPlaced e m))).set 7 none))
          5 (some ⟨.b, .r⟩) (by simpa using (by omega : (5 : Nat) < e.board.length))
          (by omega),
        boardGet_set_ne (by omega),
        boardGet_set_ne (by omega),
        boardGet_set_ne (by omega), h1,
        boardHash_set (((e.board.set 4 none).set 6 (some (mPlaced e m)))) 7 none
          (by simpa using (by omega : (7 : Nat) < e.board.length)) (by omega),
        boardGet_set_ne (by omega),
        boardGet_set_ne (by omega), h3,
        boardHash_set ((e.board.set 4 none)) 6 (some (mPlaced e m))
          (by simpa using htoLt) (by omega),
        boardGet_set_ne (by omega), h2,
        boardHash_set e.board 4 none hfromLt (by omega), hpb]
      simp only [cellKey, Nat.xor_zero]
      simp [Nat.xor_assoc, Nat.xor_comm, xor_left_comm, Nat.xor_self, Nat.xor_zero,
        Nat.zero_xor, Nat.xor_cancel_left]
    · -- black queen side: 4 → 2, rook 0 → 3
      rw [boardHash_set ((((e.board.set 4 none).set 2 (some (mPlaced e m))).set 0 none))
          3 (some ⟨.b, .r⟩) (by simpa using (by omega : (3 : Nat) < e.board.length))
          (by omega),
        boardGet_set_ne (by omega),
        boardGet_set_ne (by omega),
        boardGet_set_ne (by omega), h1,
        boardHash_set (((e.board.set 4 none).set 2 (some (mPlaced e m)))) 0 none
          (by simpa using (by omega : (0 : Nat) < e.board.length)) (by omega),
        boardGet_set_ne (by omega),
        boardGet_set_ne (by omega), h3,
        boardHash_set ((e.board.set 4 none)) 2 (some (mPlaced e m))
          (by simpa using htoLt) (by omega),
        boardGet_set_ne (by omega), h2,
        boardHash_set e.board 4 none hfromLt (by omega), hpb]
      simp only [cellKey, Nat.xor_zero]
      simp [Nat.xor_assoc, Nat.xor_comm, xor_left_comm, Nat.xor_self, Nat.xor_zero,
        Nat.zero_xor, Nat.xor_cancel_left]
theorem computeHash_congr (e1 e2 : Engine) (hb : e1.board = e2.board)
    (ht : e1.turn = e2.turn) (hc : e1.castling = e2.castling) (hp : e1.ep = e2.ep) :
    computeHash e1 = computeHash e2 := by
  unfold computeHash
  rw [hb, ht, hc, hp]

theorem loadFEN_hash (e : Engine) (fen : String) (e' : Engine)
    (hok : loadFEN e fen = Except.ok e') : e'.hash = computeHash e' := by
  unfold loadFEN at hok
  dsimp only at hok
  split at hok
  · cases hok
  · split at hok
    · cases hok
    · split at hok
      · cases hok
      · split at hok
        · split at hok
          · split at hok
            · cases hok
            · split at hok
              · cases hok
              · injection hok with h
                subst h
                exact computeHash_congr _ _ rfl rfl rfl rfl
          · cases hok
        · cases hok

/-- C3: after each mutation of the position — `makeMove`, the matching
`unmakeMove`, and a successful `loadFEN` — the incrementally maintained `hash`
field equals the value recomputed from scratch by `computeHash` (position
well-formed: 64-square board, en-passant square empty if set, hash invariant
holding before the mutation). -/
theorem C3_hash_invariant (e : Engine) (m : Move)
    (hep : epOK e = true) (hm : m ∈ generateLegalMoves e e.turn)
    (hlen : e.board.length = 64) (hinv : e.hash = computeHash e) :
    ((makeMove e m true).1.hash = computeHash (makeMove e m true).1) ∧
    ((unmakeMove (makeMove e m true).1 (makeMove e m true).2 true).hash =
      computeHash (unmakeMove (makeMove e m true).1 (makeMove e m true).2 true)) ∧
    (∀ (fen : String) (e2 e' : Engine), loadFEN e2 fen = Except.ok e' →
      e'.hash = computeHash e') := by
  have hps : m ∈ generatePseudoMoves e e.turn :=
    ((mem_legal_iff e e.turn m hep (fun _ _ _ => rfl)).mp hm).1
  have hf : MoveFacts e e.turn m := pseudo_moveFacts hps
  refine ⟨makeMove_hash e m true hf hep hlen hinv, ?_, ?_⟩
  · rw [unmake_make_hash, hinv]
    exact computeHash_congr _ _
      (unmake_make_board e m e.turn true true hf (fun _ => rfl) hep).symm
      (unmake_make_turn e m true true).symm
      (unmake_make_castling e m true true).symm
      (unmake_make_ep e m true true).symm
  · intro fen e2 e' hok
    exact loadFEN_hash e2 fen e' hok

theorem C3_hash_invariant_witness :
    (makeMove startEngine
      { fromSq := 48, toSq := 40, piece := ⟨Color.w, PKind.p⟩, captured := none,
        capturedIndex := none, promotion := none, isCastle := false, castleSide := none,
        isEnPassant := false, isDoublePawn := false } true).1.hash =
      computeHash (makeMove startEngine
        { fromSq := 48, toSq := 40, piece := ⟨Color.w, PKind.p⟩, captured := none,
          capturedIndex := none, promotion := none, isCastle := false, castleSide := none,
          isEnPassant := false, isDoublePawn := false } true).1 :=
  (C3_hash_invariant startEngine
    { fromSq := 48, toSq := 40, piece := ⟨Color.w, PKind.p⟩, captured := none,
      capturedIndex := none, promotion := none, isCastle := false, castleSide := none,
      isEnPassant := false, isDoublePawn := false }
    (by decide) (by decide) (by decide) (by decide)).1
theorem getGameResult_main (e : Engine) (hep : epOK e = true) :
    getGameResult e =
      (if (generateLegalMoves e e.turn).length = 0 then
        (if inCheck e e.turn then
          ({ over := true, result := some .checkmate,
             winner := some (opponent e.turn) } : GameResult)
         else { over := true, result := some .stalemate, winner := none })
       else if e.halfmove ≥ 100 then { over := true, result := some .fiftyMove, winner := none }
       else if getRepetitionCount e ≥ 3 then
         { over := true, result := some .threefold, winner := none }
       else if isInsufficientMaterial e then
         { over := true, result := some .insufficient, winner := none }
       else { over := false, result := none, winner := none }) := by
  unfold getGameResult getGameResultE generateLegalMoves
  rw [generateLegalMovesE_eq e e.turn hep (fun _ _ _ => rfl)]
  dsimp only
  split_ifs <;> rfl

/-- C4: `getGameResult` classifies in order — with the position well-formed
(en-passant square empty if set) and the repetition map consistent with the
hash history, no legal moves for the side to move yields checkmate (winner the
opponent) when in check and stalemate otherwise, regardless of the clocks;
when legal moves exist, fifty-move fires at halfmove clock at least 100, and
threefold fires when the current hash occurs at least 3 times in the recorded
hash history. -/
theorem C4_game_result (e : Engine) (hep : epOK e = true)
    (hrep : getRepetitionCount e = e.hashLine.count e.hash) :
    (generateLegalMoves e e.turn = [] → inCheck e e.turn = true →
      getGameResult e =
        { over := true, result := some .checkmate, winner := some (opponent e.turn) }) ∧
    (generateLegalMoves e e.turn = [] → inCheck e e.turn = false →
      getGameResult e = { over := true, result := some .stalemate, winner := none }) ∧
    (generateLegalMoves e e.turn ≠ [] → e.halfmove ≥ 100 →
      getGameResult e = { over := true, result := some .fiftyMove, winner := none }) ∧
    (generateLegalMoves e e.turn ≠ [] → e.halfmove < 100 →
      e.hashLine.count e.hash ≥ 3 →
      getGameResult e = { over := true, result := some .threefold, winner := none }) := by
  have hmain := getGameResult_main e hep
  refine ⟨?_, ?_, ?_, ?_⟩
  · intro h0 hchk
    rw [hmain, h0, hchk]
    simp
  · intro h0 hchk
    rw [hmain, h0, hchk]
    simp
  · intro hne h100
    have hlen : ¬ ((generateLegalMoves e e.turn).length = 0) := by
      simpa [List.length_eq_zero] using hne
    rw [hmain, if_neg hlen, if_pos h100]
  · intro hne h100 h3
    have hlen : ¬ ((generateLegalMoves e e.turn).length = 0) := by
      simpa [List.length_eq_zero] using hne
    rw [hmain, if_neg hlen, if_neg (by omega), if_pos (by rw [hrep]; exact h3)]

theorem C4_game_result_witness :
    (generateLegalMoves startEngine startEngine.turn = [] →
      inCheck startEngine startEngine.turn = true →
      getGameResult startEngine =
        { over := true, result := some .checkmate,
          winner := some (opponent startEngine.turn) }) ∧
    (generateLegalMoves startEngine startEngine.turn = [] →
      inCheck startEngine startEngine.turn = false →
      getGameResult startEngine =
        { over := true, result := some .stalemate, winner := none }) ∧
    (generateLegalMoves startEngine startEngine.turn ≠ [] → startEngine.halfmove ≥ 100 →
      getGameResult startEngine =
        { over := true, result := some .fiftyMove, winner := none }) ∧
    (generateLegalMoves startEngine startEngine.turn ≠ [] → startEngine.halfmove < 100 →
      startEngine.hashLine.count startEngine.hash ≥ 3 →
      getGameResult startEngine =
        { over := true, result := some .threefold, winner := none }) :=
  C4_game_result startEngine (by decide) (by decide)
/-- C5: `loadFEN` is not atomic on failure — on the rejected FEN string
`"8/8/8/8/4k3/8/8/4K3 x - - 0 1"` (invalid side-to-move token `x`) applied to
the freshly constructed start position, it reports an error yet leaves the
board mutated to the already-parsed placement instead of the pre-call board,
contradicting the requirement that a failed import leave the position
unchanged. -/
theorem C5_loadFEN_mutates_on_error :
    fenOk (loadFEN startEngine "8/8/8/8/4k3/8/8/4K3 x - - 0 1") = false ∧
    (fenState (loadFEN startEngine "8/8/8/8/4k3/8/8/4K3 x - - 0 1")).board ≠
      startEngine.board := by
  decide
theorem opponent_opponent (c : Color) : opponent (opponent c) = c := by
  cases c <;> rfl

theorem materialScore_neg (bd : List (Option Piece)) (c : Color) :
    materialScore bd (opponent c) = -(materialScore bd c) := by
  unfold materialScore
  have h : ∀ (l : List Nat) (s : Int),
      l.foldl
        (fun s i =>
          match boardGet bd i with
          | none => s
          | some pc =>
            let base := PIECE_VALUES pc.kind
            let pst := pstFor pc.kind
            let ps := if pc.color = Color.w then pst.getD i 0 else pst.getD (63 - i) 0
            let v := base + ps
            if pc.color = opponent c then s + v else s - v) (-s) =
      -(l.foldl
        (fun s i =>
          match boardGet bd i with
          | none => s
          | some pc =>
            let base := PIECE_VALUES pc.kind
            let pst := pstFor pc.kind
            let ps := if pc.color = Color.w then pst.getD i 0 else pst.getD (63 - i) 0
            let v := base + ps
            if pc.color = c then s + v else s - v) s) := by
    intro l
    induction l with
    | nil => intro s; rfl
    | cons i rest ih =>
      intro s
      simp only [List.foldl_cons]
      rcases hbg : boardGet bd i with _ | pc
      · simp only [hbg]
        exact ih s
      · simp only [hbg]
        generalize (PIECE_VALUES pc.kind +
          (if pc.color = Color.w then (pstFor pc.kind).getD i 0
           else (pstFor pc.kind).getD (63 - i) 0) : Int) = V
        rcases hcc : pc.color with _ | _ <;> rcases c with _ | _ <;>
          simp only [opponent, reduceCtorEq, if_true, if_false, ite_true, ite_false]
        · rw [show -s - V = -(s + V) by ring]
          exact ih (s + V)
        · rw [show -s + V = -(s - V) by ring]
          exact ih (s - V)
        · rw [show -s + V = -(s - V) by ring]
          exact ih (s - V)
        · rw [show -s - V = -(s + V) by ring]
          exact ih (s + V)
  simpa using h (List.range 64) 0

theorem clamp_neg (m : Int) : clamp (-m) (-20) 20 = -(clamp m (-20) 20) := by
  unfold clamp
  omega

theorem pseudo_castle_turn (e : Engine) (hcst : noNonTurnCastlePseudo e = true)
    (c : Color) (m : Move) (hm : m ∈ generatePseudoMoves e c) (hc : m.isCastle = true) :
    c = e.turn := by
  by_cases h : c = e.turn
  · exact h
  · exfalso
    have hco : c = opponent e.turn := by
      rcases c <;> rcases he : e.turn <;> simp_all [opponent]
    unfold noNonTurnCastlePseudo at hcst
    rw [List.all_eq_true] at hcst
    have h2 := hcst m (by rw [← hco]; exact hm)
    rw [hc] at h2
    exact Bool.noConfusion h2

/-- C9: `evaluate` is not free of net side effects.  On the position
`evalBugEngine` (black king e8, black rook h8, white king e1, black kingside
castling rights, white to move), `evaluate(engine, "w")` returns an engine
whose square h1 now holds a white rook that was never there: the internal
trial of black\'s O-O relocates rooks keyed on `this.turn` (white) during
`makeMove` but restores keyed on the mover during `unmakeMove`, leaving the
board permanently corrupted. -/
theorem C9_evaluate_side_effect :
    boardGet (evaluateE evalBugEngine Color.w).2.board 63 = some ⟨Color.w, PKind.r⟩ ∧
    boardGet evalBugEngine.board 63 = none := by
  decide

/-- C10 counterexample: at `evalBugEngine` the static evaluation is not
antisymmetric in the perspective — `evaluate(E, "w")` is not the negation of
`evaluate(E, "b")`, because the first `generateLegalMoves` call corrupts the
board (phantom white rook) before the second mobility count runs. -/
theorem C10_eval_antisym_counterexample :
    evaluate evalBugEngine Color.w ≠ -(evaluate evalBugEngine Color.b) := by
  decide

/-- C10 (amended): on a position whose en passant target square (if any) is
empty and where the non-turn color has no castle pseudo-moves — so the
mobility trials restore the engine — the static evaluation is antisymmetric
in the perspective: the material and piece-square sum flips sign exactly and
`clamp(m, -20, 20) * 2` is odd in the mobility difference `m`. -/
theorem C10_evaluate_antisymmetric (e : Engine) (c : Color)
    (hep : epOK e = true) (hcst : noNonTurnCastlePseudo e = true) :
    evaluate e (opponent c) = -(evaluate e c) := by
  unfold evaluate evaluateE
  rw [opponent_opponent]
  rw [generateLegalMovesE_eq e (opponent c) hep (pseudo_castle_turn e hcst (opponent c)),
    generateLegalMovesE_eq e c hep (pseudo_castle_turn e hcst c)]
  dsimp only
  rw [generateLegalMovesE_eq e c hep (pseudo_castle_turn e hcst c),
    generateLegalMovesE_eq e (opponent c) hep (pseudo_castle_turn e hcst (opponent c))]
  dsimp only
  rw [materialScore_neg]
  generalize ((List.filter (fun m => ! inCheck (makeMove e m false).1 c)
    (generatePseudoMoves e c)).length : Int) = A
  generalize ((List.filter (fun m => ! inCheck (makeMove e m false).1 (opponent c))
    (generatePseudoMoves e (opponent c))).length : Int) = B
  rw [show B - A = -(A - B) by ring, clamp_neg]
  ring

theorem C10_evaluate_antisymmetric_witness :
    evaluate startEngine (opponent Color.w) = -(evaluate startEngine Color.w) :=
  C10_evaluate_antisymmetric startEngine Color.w (by decide) (by decide)
theorem filter_orderedInsert_score (s : Int) (a : Move) :
    ∀ t : List Move,
    (List.orderedInsert (fun x y => moveScore y ≤ moveScore x) a t).filter
      (fun m => decide (moveScore m = s)) =
    (a :: t).filter (fun m => decide (moveScore m = s)) := by
  intro t
  induction t with
  | nil => rfl
  | cons b t' ih =>
    by_cases hr : moveScore b ≤ moveScore a
    · rw [List.orderedInsert, if_pos hr]
    · rw [List.orderedInsert, if_neg hr]
      simp only [List.filter_cons, ih]
      by_cases hpa : moveScore a = s
      · have hpb : moveScore b ≠ s := by omega
        simp [hpa, hpb]
      · simp [hpa]

theorem filter_orderMoves_score (s : Int) :
    ∀ ms : List Move,
    (orderMoves ms).filter (fun m => decide (moveScore m = s)) =
      ms.filter (fun m => decide (moveScore m = s)) := by
  intro ms
  induction ms with
  | nil => rfl
  | cons a l ih =>
    unfold orderMoves at *
    rw [show List.insertionSort (fun a b => moveScore b ≤ moveScore a) (a :: l) =
        List.orderedInsert (fun x y => moveScore y ≤ moveScore x) a
          (List.insertionSort (fun a b => moveScore b ≤ moveScore a) l) from rfl,
      filter_orderedInsert_score]
    simp only [List.filter_cons]
    rw [ih]

/-- C8 counterexample: `orderMoves` does not put promotions ahead of every
non-promotion — a quiet queen promotion (weight 900) is ordered after a
pawn-takes-queen capture (score 900 * 10 - 100 = 8900), so the capture comes
first although a promotion is present. -/
theorem C8_order_moves_counterexample :
    orderMoves
      [{ fromSq := 8, toSq := 0, piece := ⟨Color.w, PKind.p⟩, captured := none,
         capturedIndex := none, promotion := some PKind.q, isCastle := false,
         castleSide := none, isEnPassant := false, isDoublePawn := false },
       { fromSq := 49, toSq := 40, piece := ⟨Color.w, PKind.p⟩,
         captured := some ⟨Color.b, PKind.q⟩, capturedIndex := none, promotion := none,
         isCastle := false, castleSide := none, isEnPassant := false,
         isDoublePawn := false }] =
      [{ fromSq := 49, toSq := 40, piece := ⟨Color.w, PKind.p⟩,
         captured := some ⟨Color.b, PKind.q⟩, capturedIndex := none, promotion := none,
         isCastle := false, castleSide := none, isEnPassant := false,
         isDoublePawn := false },
       { fromSq := 8, toSq := 0, piece := ⟨Color.w, PKind.p⟩, captured := none,
         capturedIndex := none, promotion := some PKind.q, isCastle := false,
         castleSide := none, isEnPassant := false, isDoublePawn := false }] := by
  decide

/-- C8 (amended): `orderMoves` returns a permutation of its input that is
sorted in descending order of the comparator score — 900 for a promotion plus,
for captures and en passant, captured-piece value times 10 minus moving-piece
value — and it is stable: for every score class, the moves of that score
appear in their original relative order.  (Promotions do not in general come
first: a promotion scores a fixed 900, below high-value captures.) -/
theorem C8_order_moves (ms : List Move) :
    (orderMoves ms).Perm ms ∧
    (orderMoves ms).Sorted (fun a b => moveScore b ≤ moveScore a) ∧
    ∀ s : Int, (orderMoves ms).filter (fun m => decide (moveScore m = s)) =
      ms.filter (fun m => decide (moveScore m = s)) := by
  refine ⟨List.perm_insertionSort _ ms, ?_, fun s => filter_orderMoves_score s ms⟩
  haveI ht : IsTotal Move (fun a b => moveScore b ≤ moveScore a) :=
    ⟨fun a b => le_total (moveScore b) (moveScore a)⟩
  haveI htr : IsTrans Move (fun a b => moveScore b ≤ moveScore a) :=
    ⟨fun _ _ _ h1 h2 => le_trans h2 h1⟩
  exact List.sorted_insertionSort _ ms
theorem encCells_foldl (cellOf : Nat → Option Piece) :
    ∀ (l : List Nat) (A : List Char) (run : Nat),
    (let st := l.foldl
      (fun (acc : List Char × Nat) f =>
        match cellOf f with
        | none => (acc.1, acc.2 + 1)
        | some pc =>
          (acc.1 ++ (if acc.2 ≠ 0 then [natDigitChar acc.2] else []) ++ [pieceChar pc], 0))
      (A, run)
     st.1 ++ (if st.2 ≠ 0 then [natDigitChar st.2] else [])) =
      A ++ encCells (l.map cellOf) run := by
  intro l
  induction l with
  | nil => intro A run; rfl
  | cons i rest ih =>
    intro A run
    simp only [List.foldl_cons, List.map_cons]
    rcases hc : cellOf i with _ | pc
    · simp only [hc]
      rw [ih A (run + 1)]
      rfl
    · simp only [hc]
      rw [ih (A ++ (if run ≠ 0 then [natDigitChar run] else []) ++ [pieceChar pc]) 0]
      simp [encCells, List.append_assoc]

theorem rowFEN_eq_encCells (bd : List (Option Piece)) (r : Nat) :
    rowFEN bd r = encCells (rankCells bd r) 0 := by
  unfold rowFEN rankCells
  simpa using encCells_foldl (fun f => boardGet bd (r * 8 + f)) (List.range 8) [] 0

theorem natDigit_facts (run : Nat) (h1 : 1 ≤ run) (h2 : run ≤ 8) :
    ('1' ≤ natDigitChar run ∧ natDigitChar run ≤ '8') ∧
    (natDigitChar run).toNat - Char.toNat '0' = run ∧
    isWs (natDigitChar run) = false ∧ natDigitChar run ≠ '/' := by
  interval_cases run <;> exact ⟨by decide, by decide, by decide, by decide⟩

theorem natDigitChar_le9_facts (d : Nat) (h : d ≤ 9) :
    isWs (natDigitChar d) = false ∧ natDigitChar d ≠ '/' ∧
    '0' ≤ natDigitChar d ∧ natDigitChar d ≤ '9' := by
  interval_cases d <;> exact ⟨by decide, by decide, by decide, by decide⟩

theorem pieceChar_facts (pc : Piece) :
    ¬ ('1' ≤ pieceChar pc ∧ pieceChar pc ≤ '8') ∧
    charToPiece (pieceChar pc) = some pc ∧
    ((pieceChar pc = 'K') = (pc = ⟨Color.w, PKind.k⟩)) ∧
    ((pieceChar pc = 'k') = (pc = ⟨Color.b, PKind.k⟩)) ∧
    isWs (pieceChar pc) = false ∧ pieceChar pc ≠ '/' := by
  rcases pc with ⟨c, k⟩
  rcases c <;> rcases k <;>
    exact ⟨by decide, by decide, by decide, by decide, by decide, by decide⟩

theorem parseRow_digit (e : Engine) (r run f0 : Nat) (rest : List Char)
    (wK bK : Option Nat) (h1 : 1 ≤ run) (h2 : run ≤ 8) (hf : f0 + run ≤ 8) :
    parseRowChars e r (natDigitChar run :: rest) f0 wK bK =
      parseRowChars e r rest (f0 + run) wK bK := by
  obtain ⟨hcmp, htn, -, -⟩ := natDigit_facts run h1 h2
  rw [parseRowChars, if_neg (by omega : ¬ f0 > 7), if_pos hcmp, htn]

theorem parseRow_piece (e : Engine) (r f0 : Nat) (pc : Piece) (rest : List Char)
    (wK bK : Option Nat) (hf : f0 ≤ 7) :
    parseRowChars e r (pieceChar pc :: rest) f0 wK bK =
      parseRowChars { e with board := e.board.set (r * 8 + f0) (some pc) } r rest (f0 + 1)
        (if pc = ⟨Color.w, PKind.k⟩ then some (r * 8 + f0) else wK)
        (if pc = ⟨Color.b, PKind.k⟩ then some (r * 8 + f0) else bK) := by
  obtain ⟨hdig, hc2p, hK, hk, -, -⟩ := pieceChar_facts pc
  rw [parseRowChars, if_neg (by omega : ¬ f0 > 7), if_neg hdig, hc2p]
  dsimp only
  simp only [hK, hk]

theorem parseRow_enc (r : Nat) :
    ∀ (cells : List (Option Piece)) (run f0 : Nat) (e : Engine) (wK bK : Option Nat),
    f0 + run + cells.length = 8 →
    parseRowChars e r (encCells cells run) f0 wK bK =
      .ok (placeCells r e cells (f0 + run), 8,
        kingsUpd r cells (f0 + run) (wK, bK)) := by
  intro cells
  induction cells with
  | nil =>
    intro run f0 e wK bK hsum
    have h8 : f0 + run = 8 := by simpa using hsum
    by_cases hr : run = 0
    · subst hr
      rw [show encCells [] 0 = [] from rfl]
      rw [parseRowChars]
      have : f0 = 8 := by omega
      subst this
      rfl
    · rw [show encCells [] run = [natDigitChar run] from by simp [encCells, hr]]
      rw [parseRow_digit e r run f0 [] wK bK (by omega) (by omega) (by omega)]
      rw [parseRowChars, h8]
      rfl
  | cons cell rest ih =>
    intro run f0 e wK bK hsum
    have hlen : f0 + run + (rest.length + 1) = 8 := by simpa using hsum
    rcases cell with _ | pc
    · rw [show encCells (none :: rest) run = encCells rest (run + 1) from rfl]
      rw [ih (run + 1) f0 e wK bK (by omega)]
      rw [show f0 + (run + 1) = f0 + run + 1 from by omega]
      rfl
    · by_cases hr : run = 0
      · subst hr
        rw [show encCells (some pc :: rest) 0 = pieceChar pc :: encCells rest 0 from by
          simp [encCells]]
        rw [parseRow_piece e r f0 pc _ wK bK (by omega)]
        rw [ih 0 (f0 + 1) _ _ _ (by simp; omega)]
        simp only [Nat.add_zero]
        rfl
      · rw [show encCells (some pc :: rest) run =
            natDigitChar run :: pieceChar pc :: encCells rest 0 from by
          simp [encCells, hr]]
        rw [parseRow_digit e r run f0 _ wK bK (by omega) (by omega) (by omega)]
        rw [parseRow_piece e r (f0 + run) pc _ wK bK (by omega)]
        rw [ih 0 (f0 + run + 1) _ _ _ (by simp; omega)]
        simp only [Nat.add_zero]
        rfl

theorem placeCells_board_length (r : Nat) :
    ∀ (cells : List (Option Piece)) (e : Engine) (f : Nat),
    (placeCells r e cells f).board.length = e.board.length := by
  intro cells
  induction cells with
  | nil => intro e f; rfl
  | cons cell rest ih =>
    intro e f
    rcases cell with _ | pc
    · exact ih e (f + 1)
    · rw [show placeCells r e (some pc :: rest) f =
        placeCells r { e with board := e.board.set (r * 8 + f) (some pc) } rest (f + 1)
        from rfl, ih]
      simp

theorem placeCells_get_out (r : Nat) :
    ∀ (cells : List (Option Piece)) (e : Engine) (f j : Nat),
    (j < r * 8 + f ∨ r * 8 + f + cells.length ≤ j) →
    boardGet (placeCells r e cells f).board j = boardGet e.board j := by
  intro cells
  induction cells with
  | nil => intro e f j _; rfl
  | cons cell rest ih =>
    intro e f j hj
    have hlen : (cell :: rest).length = rest.length + 1 := by simp
    rcases cell with _ | pc
    · rw [show placeCells r e (none :: rest) f = placeCells r e rest (f + 1) from rfl]
      exact ih e (f + 1) j (by omega)
    · rw [show placeCells r e (some pc :: rest) f =
        placeCells r { e with board := e.board.set (r * 8 + f) (some pc) } rest (f + 1)
        from rfl]
      rw [ih _ (f + 1) j (by omega)]
      exact boardGet_set_ne (by omega) _

theorem placeCells_get_in (r : Nat) :
    ∀ (cells : List (Option Piece)) (e : Engine) (f t : Nat),
    t < cells.length → r * 8 + f + t < e.board.length →
    boardGet (placeCells r e cells f).board (r * 8 + f + t) =
      (match cells.getD t none with
       | some pc => some pc
       | none => boardGet e.board (r * 8 + f + t)) := by
  intro cells
  induction cells with
  | nil => intro e f t ht _; simp at ht
  | cons cell rest ih =>
    intro e f t ht hlen
    rcases t with _ | t'
    · rcases cell with _ | pc
      · rw [show placeCells r e (none :: rest) f = placeCells r e rest (f + 1) from rfl]
        rw [placeCells_get_out r rest e (f + 1) _ (by omega)]
        rfl
      · rw [show placeCells r e (some pc :: rest) f =
          placeCells r { e with board := e.board.set (r * 8 + f) (some pc) } rest (f + 1)
          from rfl]
        rw [placeCells_get_out r rest _ (f + 1) _ (by omega)]
        show boardGet (e.board.set (r * 8 + f) (some pc)) (r * 8 + f + 0) = some pc
        rw [show r * 8 + f + 0 = r * 8 + f from rfl]
        exact boardGet_set_self (by omega) _
    · have harith : r * 8 + f + (t' + 1) = r * 8 + (f + 1) + t' := by omega
      simp only [List.getD_cons_succ]
      rcases cell with _ | pc
      · rw [show placeCells r e (none :: rest) f = placeCells r e rest (f + 1) from rfl]
        rw [harith, ih e (f + 1) t' (by simp at ht; omega) (by omega)]
      · rw [show placeCells r e (some pc :: rest) f =
          placeCells r { e with board := e.board.set (r * 8 + f) (some pc) } rest (f + 1)
          from rfl]
        rw [harith, ih _ (f + 1) t' (by simp at ht; omega) (by simp; omega)]
        rcases hg : rest.getD t' none with _ | pc2 <;> simp only [hg]
        · show boardGet (e.board.set (r * 8 + f) (some pc)) (r * 8 + (f + 1) + t') =
            boardGet e.board (r * 8 + (f + 1) + t')
          exact boardGet_set_ne (by omega) _

theorem kingsUpd_mono (r : Nat) :
    ∀ (cells : List (Option Piece)) (f : Nat) (ks : Option Nat × Option Nat),
    (ks.1.isSome = true → (kingsUpd r cells f ks).1.isSome = true) ∧
    (ks.2.isSome = true → (kingsUpd r cells f ks).2.isSome = true) := by
  intro cells
  induction cells with
  | nil => intro f ks; exact ⟨id, id⟩
  | cons cell rest ih =>
    intro f ks
    rcases cell with _ | pc
    · exact ih (f + 1) ks
    · refine ⟨fun h1 => ?_, fun h2 => ?_⟩
      · exact (ih (f + 1) _).1 (by by_cases hp : pc = (⟨Color.w, PKind.k⟩ : Piece) <;>
          simp [hp, h1])
      · exact (ih (f + 1) _).2 (by by_cases hp : pc = (⟨Color.b, PKind.k⟩ : Piece) <;>
          simp [hp, h2])

theorem kingsUpd_found_w (r : Nat) :
    ∀ (cells : List (Option Piece)) (f : Nat) (ks : Option Nat × Option Nat),
    (some (⟨Color.w, PKind.k⟩ : Piece)) ∈ cells →
    (kingsUpd r cells f ks).1.isSome = true := by
  intro cells
  induction cells with
  | nil => intro f ks h; simp at h
  | cons cell rest ih =>
    intro f ks hmem
    rcases List.mem_cons.mp hmem with heq | hmem2
    · subst heq
      exact (kingsUpd_mono r rest (f + 1) _).1 (by simp)
    · rcases cell with _ | pc
      · exact ih (f + 1) ks hmem2
      · exact ih (f + 1) _ hmem2

theorem kingsUpd_found_b (r : Nat) :
    ∀ (cells : List (Option Piece)) (f : Nat) (ks : Option Nat × Option Nat),
    (some (⟨Color.b, PKind.k⟩ : Piece)) ∈ cells →
    (kingsUpd r cells f ks).2.isSome = true := by
  intro cells
  induction cells with
  | nil => intro f ks h; simp at h
  | cons cell rest ih =>
    intro f ks hmem
    rcases List.mem_cons.mp hmem with heq | hmem2
    · subst heq
      exact (kingsUpd_mono r rest (f + 1) _).2 (by simp)
    · rcases cell with _ | pc
      · exact ih (f + 1) ks hmem2
      · exact ih (f + 1) _ hmem2

theorem rankCells_getD (bd : List (Option Piece)) (r t : Nat) (ht : t < 8) :
    (rankCells bd r).getD t none = boardGet bd (r * 8 + t) := by
  interval_cases t <;> rfl

theorem rankCells_length (bd : List (Option Piece)) (r : Nat) :
    (rankCells bd r).length = 8 := by
  simp [rankCells]

theorem placeRank_invariant (bd : List (Option Piece)) (k : Nat) (e : Engine)
    (hk : k ≤ 7) (hlen : e.board.length = 64)
    (hP : ∀ j, boardGet e.board j = if j < 8 * k then boardGet bd j else none) :
    (placeCells k e (rankCells bd k) 0).board.length = 64 ∧
    (∀ j, boardGet (placeCells k e (rankCells bd k) 0).board j =
      if j < 8 * (k + 1) then boardGet bd j else none) := by
  refine ⟨by rw [placeCells_board_length, hlen], fun j => ?_⟩
  by_cases hlo : j < k * 8
  · rw [placeCells_get_out k _ e 0 j (by omega), hP j, if_pos (by omega), if_pos (by omega)]
  · by_cases hhi : j < k * 8 + 8
    · have ht : j = k * 8 + 0 + (j - k * 8) := by omega
      rw [ht, placeCells_get_in k _ e 0 (j - k * 8)
        (by rw [rankCells_length]; omega) (by omega)]
      rw [show k * 8 + 0 + (j - k * 8) = k * 8 + (j - k * 8) from by omega,
        rankCells_getD bd k (j - k * 8) (by omega)]
      rw [show k * 8 + (j - k * 8) = j from by omega]
      rcases hb : boardGet bd j with _ | pc
      · rw [hP j, if_neg (by omega), if_pos (by omega)]
      · rw [if_pos (by omega)]
    · rw [placeCells_get_out k _ e 0 j (by rw [rankCells_length]; omega),
        hP j, if_neg (by omega), if_neg (by omega)]

theorem parseRows_step (bd : List (Option Piece)) (e : Engine) (r : Nat)
    (rest : List (List Char)) (wK bK : Option Nat) :
    parseRows e (encCells (rankCells bd r) 0 :: rest) r wK bK =
      parseRows (placeCells r e (rankCells bd r) 0) rest (r + 1)
        (kingsUpd r (rankCells bd r) 0 (wK, bK)).1
        (kingsUpd r (rankCells bd r) 0 (wK, bK)).2 := by
  rw [parseRows, parseRow_enc r (rankCells bd r) 0 0 e wK bK
    (by rw [rankCells_length])]
  rfl

theorem encCells_chars :
    ∀ (cells : List (Option Piece)) (run : Nat), run + cells.length ≤ 8 →
    ∀ c ∈ encCells cells run, isWs c = false ∧ c ≠ '/' := by
  intro cells
  induction cells with
  | nil =>
    intro run hb c hc
    rw [encCells] at hc
    by_cases hr : run = 0
    · simp [hr] at hc
    · simp [hr] at hc
      subst hc
      obtain ⟨h1, h2, -, -⟩ := natDigitChar_le9_facts run (by omega)
      exact ⟨h1, h2⟩
  | cons cell rest ih =>
    intro run hb c hc
    rcases cell with _ | pc
    · rw [show encCells (none :: rest) run = encCells rest (run + 1) from rfl] at hc
      exact ih (run + 1) (by simp at hb; omega) c hc
    · rw [show encCells (some pc :: rest) run =
        (if run ≠ 0 then [natDigitChar run] else []) ++ pieceChar pc :: encCells rest 0
        from rfl] at hc
      rcases List.mem_append.mp hc with h1 | h2
      · by_cases hr : run = 0
        · simp [hr] at h1
        · simp [hr] at h1
          subst h1
          obtain ⟨ha, hb2, -, -⟩ := natDigitChar_le9_facts run (by simp at hb; omega)
          exact ⟨ha, hb2⟩
      · rcases List.mem_cons.mp h2 with h3 | h4
        · subst h3
          obtain ⟨-, -, -, -, h5, h6⟩ := pieceChar_facts pc
          exact ⟨h5, h6⟩
        · exact ih 0 (by simp at hb; omega) c h4

theorem encCells_ne_nil :
    ∀ (cells : List (Option Piece)) (run : Nat), run + cells.length ≠ 0 →
    encCells cells run ≠ [] := by
  intro cells
  induction cells with
  | nil =>
    intro run hb
    rw [encCells]
    have : run ≠ 0 := by simpa using hb
    simp [this]
  | cons cell rest ih =>
    intro run hb
    rcases cell with _ | pc
    · rw [show encCells (none :: rest) run = encCells rest (run + 1) from rfl]
      exact ih (run + 1) (by omega)
    · rw [show encCells (some pc :: rest) run =
        (if run ≠ 0 then [natDigitChar run] else []) ++ pieceChar pc :: encCells rest 0
        from rfl]
      simp

theorem natDigitChar_toNat (d : Nat) (h : d ≤ 9) :
    (natDigitChar d).toNat - Char.toNat '0' = d := by
  interval_cases d <;> decide

theorem natToChars_mem :
    ∀ (n : Nat), ∀ c ∈ natToChars n, ∃ d, d ≤ 9 ∧ c = natDigitChar d := by
  intro n
  induction n using Nat.strong_induction_on with
  | _ n ih =>
    intro c hc
    rw [natToChars] at hc
    by_cases h : n < 10
    · simp [h] at hc
      exact ⟨n, by omega, hc⟩
    · simp [h] at hc
      rcases hc with h1 | h2
      · exact ih (n / 10) (Nat.div_lt_self (by omega) (by omega)) c h1
      · exact ⟨n % 10, by omega, h2⟩

theorem natToChars_ne_nil (n : Nat) : natToChars n ≠ [] := by
  rw [natToChars]
  by_cases h : n < 10 <;> simp [h]

theorem natToChars_foldl :
    ∀ (n a : Nat),
    (natToChars n).foldl (fun a c => a * 10 + (c.toNat - Char.toNat '0')) a =
      a * 10 ^ (natToChars n).length + n := by
  intro n
  induction n using Nat.strong_induction_on with
  | _ n ih =>
    intro a
    rw [natToChars]
    by_cases h : n < 10
    · simp only [h, if_pos, dif_pos]
      rw [List.foldl_cons, List.foldl_nil, natDigitChar_toNat n (by omega)]
      simp
    · simp only [h, dif_neg, not_false_eq_true]
      rw [List.foldl_append, ih (n / 10) (Nat.div_lt_self (by omega) (by omega)) a]
      rw [List.foldl_cons, List.foldl_nil, natDigitChar_toNat (n % 10) (by omega)]
      rw [List.length_append, List.length_cons, List.length_nil]
      have hp : 10 ^ ((natToChars (n / 10)).length + (0 + 1)) =
          10 ^ (natToChars (n / 10)).length * 10 := by
        rw [Nat.pow_succ]
      rw [hp]
      have hd : 10 * (n / 10) + n % 10 = n := by omega
      calc (a * 10 ^ (natToChars (n / 10)).length + n / 10) * 10 + n % 10
          = a * (10 ^ (natToChars (n / 10)).length * 10) + (10 * (n / 10) + n % 10) := by
            ring
        _ = a * (10 ^ (natToChars (n / 10)).length * 10) + n := by rw [hd]

theorem charsToNat?_natToChars (n : Nat) : charsToNat? (natToChars n) = some n := by
  have hall : (natToChars n).all (fun c => decide ('0' ≤ c ∧ c ≤ '9')) = true := by
    rw [List.all_eq_true]
    intro c hc
    obtain ⟨d, hd, rfl⟩ := natToChars_mem n c hc
    obtain ⟨-, -, h3, h4⟩ := natDigitChar_le9_facts d hd
    simp [h3, h4]
  unfold charsToNat?
  rw [if_pos ⟨natToChars_ne_nil n, hall⟩]
  rw [natToChars_foldl n 0]
  simp

theorem wsSplit_field :
    ∀ (f : List Char), (∀ c ∈ f, isWs c = false) →
    ∀ (rest : List Char) (acc : List Char),
    wsSplit (f ++ rest) acc = wsSplit rest (f.reverse ++ acc) := by
  intro f
  induction f with
  | nil => intro _ rest acc; simp
  | cons c f2 ih =>
    intro h rest acc
    rw [List.cons_append, wsSplit, if_neg (by simp [h c (by simp)])]
    rw [ih (fun x hx => h x (by simp [hx])) rest (c :: acc)]
    simp

theorem wsSplit_break (rest : List Char) (acc : List Char) (hacc : acc ≠ []) :
    wsSplit (' ' :: rest) acc = acc.reverse :: wsSplit rest [] := by
  rw [wsSplit, if_pos (by decide), if_neg hacc]

theorem wsSplit_last (acc : List Char) (hacc : acc ≠ []) :
    wsSplit [] acc = [acc.reverse] := by
  rw [wsSplit, if_neg hacc]

theorem slashSplit_row :
    ∀ (f : List Char), (∀ c ∈ f, c ≠ '/') →
    ∀ (rest acc : List Char),
    slashSplit (f ++ '/' :: rest) acc = (acc.reverse ++ f) :: slashSplit rest [] := by
  intro f
  induction f with
  | nil =>
    intro _ rest acc
    rw [List.nil_append, slashSplit, if_pos rfl]
    simp
  | cons c f2 ih =>
    intro h rest acc
    rw [List.cons_append, slashSplit, if_neg (h c (by simp))]
    rw [ih (fun x hx => h x (by simp [hx])) rest (c :: acc)]
    simp

theorem slashSplit_lastrow :
    ∀ (f : List Char), (∀ c ∈ f, c ≠ '/') →
    ∀ (acc : List Char), slashSplit f acc = [acc.reverse ++ f] := by
  intro f
  induction f with
  | nil => intro _ acc; rw [slashSplit]; simp
  | cons c f2 ih =>
    intro h acc
    rw [slashSplit, if_neg (h c (by simp))]
    rw [ih (fun x hx => h x (by simp [hx])) (c :: acc)]
    simp

theorem dropWhile_eq_self_of (p : Char → Bool) :
    ∀ (l : List Char), (∀ c ∈ l, p c = false) → l.dropWhile p = l := by
  intro l
  induction l with
  | nil => intro _; rfl
  | cons c l2 _ =>
    intro h
    rw [List.dropWhile_cons, if_neg (by simp [h c (by simp)])]

theorem trimChars_id (l : List Char) (h : ∀ c ∈ l, isWs c = false) : trimChars l = l := by
  unfold trimChars
  rw [dropWhile_eq_self_of isWs l h,
    dropWhile_eq_self_of isWs l.reverse (fun c hc => h c (by simpa using hc)),
    List.reverse_reverse]

theorem toFEN_congr (e1 e2 : Engine) (hb : e1.board = e2.board) (ht : e1.turn = e2.turn)
    (hc : e1.castling = e2.castling) (hp : e1.ep = e2.ep)
    (hh : e1.halfmove = e2.halfmove) (hf : e1.fullmove = e2.fullmove) :
    toFEN e1 = toFEN e2 := by
  unfold toFEN toFENChars
  rw [hb, ht, hc, hp, hh, hf]

theorem board_ext (b1 b2 : List (Option Piece)) (h1 : b1.length = 64)
    (h2 : b2.length = 64) (h : ∀ j, j < 64 → boardGet b1 j = boardGet b2 j) :
    b1 = b2 := by
  apply List.ext_getElem?
  intro j
  by_cases hj : j < 64
  · have hq := h j hj
    rw [boardGet_def, boardGet_def, List.getElem?_eq_getElem (by omega),
      List.getElem?_eq_getElem (by omega)] at hq
    rw [List.getElem?_eq_getElem (by omega), List.getElem?_eq_getElem (by omega)]
    simpa using hq
  · rw [getElem?_none_of_ge (by omega), getElem?_none_of_ge (by omega)]

theorem boardGet_replicate (j : Nat) :
    boardGet (List.replicate 64 (none : Option Piece)) j = none := by
  rw [boardGet_def, List.getElem?_replicate]
  split <;> rfl

theorem squareToIndex_indexToSquare (sq : Nat) (h : sq < 64) :
    squareToIndexChars (indexToSquareChars sq) = some sq := by
  interval_cases sq <;> decide

theorem fileOf_le7 (i : Nat) : fileOf i ≤ 7 :=
  Nat.and_le_right

theorem rankOf_le7 (i : Nat) (h : i < 64) : rankOf i ≤ 7 := by
  have : rankOf i = i / 8 := by
    rw [rankOf, Nat.shiftRight_eq_div_pow]
  omega

theorem FILES_getD_facts (j : Nat) (h : j ≤ 7) :
    isWs (FILES.getD j 'a') = false ∧ FILES.getD j 'a' ≠ '-' := by
  interval_cases j <;> exact ⟨by decide, by decide⟩

theorem RANKS_getD_facts (j : Nat) (h : j ≤ 7) :
    isWs (RANKS.getD j '8') = false ∧ RANKS.getD j '8' ≠ '-' := by
  interval_cases j <;> exact ⟨by decide, by decide⟩

theorem parseCastling_roundtrip (cst : Castling) (ee : Engine)
    (hc : ee.castling = ⟨false, false, false, false⟩) :
    (if (if ((if cst.K then ['K'] else []) ++ (if cst.Q then ['Q'] else []) ++
          (if cst.k then ['k'] else []) ++ (if cst.q then ['q'] else [])) = [] then
          (['-'] : List Char)
        else (if cst.K then ['K'] else []) ++ (if cst.Q then ['Q'] else []) ++
          (if cst.k then ['k'] else []) ++ (if cst.q then ['q'] else [])) = ['-'] then
      Except.ok ee
     else parseCastlingChars ee
      (if ((if cst.K then ['K'] else []) ++ (if cst.Q then ['Q'] else []) ++
          (if cst.k then ['k'] else []) ++ (if cst.q then ['q'] else [])) = [] then
          (['-'] : List Char)
        else (if cst.K then ['K'] else []) ++ (if cst.Q then ['Q'] else []) ++
          (if cst.k then ['k'] else []) ++ (if cst.q then ['q'] else []))) =
      Except.ok { ee with castling := cst } := by
  rcases ee with ⟨b1, t1, c1, p1, h1, f1, w1, k1, hs1, r1, l1⟩
  rcases cst with ⟨K, Q, k2, q2⟩
  simp only at hc
  subst hc
  rcases K <;> rcases Q <;> rcases k2 <;> rcases q2 <;>
    simp [parseCastlingChars]

theorem ws_of_join (a b : List Char) (ha : ∀ c ∈ a, isWs c = false ∧ c ≠ '/')
    (hb : ∀ c ∈ b, isWs c = false) :
    ∀ c ∈ a ++ '/' :: b, isWs c = false := by
  intro c hc
  rcases List.mem_append.mp hc with h | h
  · exact (ha c h).1
  · rcases List.mem_cons.mp h with rfl | h2
    · decide
    · exact hb c h2

theorem placement_eq (bd : List (Option Piece)) :
    (List.range 8).foldl
      (fun acc r => acc ++ rowFEN bd r ++ (if r ≠ 7 then ['/'] else [])) [] =
    encCells (rankCells bd 0) 0 ++ '/' ::
      (encCells (rankCells bd 1) 0 ++ '/' ::
        (encCells (rankCells bd 2) 0 ++ '/' ::
          (encCells (rankCells bd 3) 0 ++ '/' ::
            (encCells (rankCells bd 4) 0 ++ '/' ::
              (encCells (rankCells bd 5) 0 ++ '/' ::
                (encCells (rankCells bd 6) 0 ++ '/' ::
                  encCells (rankCells bd 7) 0)))))) := by
  rw [show List.range 8 = [0, 1, 2, 3, 4, 5, 6, 7] from rfl]
  simp only [List.foldl_cons, List.foldl_nil]
  norm_num
  simp [rowFEN_eq_encCells, List.append_assoc]

theorem slashSplit_placement (bd : List (Option Piece)) :
    slashSplit
      (encCells (rankCells bd 0) 0 ++ '/' ::
        (encCells (rankCells bd 1) 0 ++ '/' ::
          (encCells (rankCells bd 2) 0 ++ '/' ::
            (encCells (rankCells bd 3) 0 ++ '/' ::
              (encCells (rankCells bd 4) 0 ++ '/' ::
                (encCells (rankCells bd 5) 0 ++ '/' ::
                  (encCells (rankCells bd 6) 0 ++ '/' ::
                    encCells (rankCells bd 7) 0))))))) [] =
      [encCells (rankCells bd 0) 0, encCells (rankCells bd 1) 0,
       encCells (rankCells bd 2) 0, encCells (rankCells bd 3) 0,
       encCells (rankCells bd 4) 0, encCells (rankCells bd 5) 0,
       encCells (rankCells bd 6) 0, encCells (rankCells bd 7) 0] := by
  have hrw : ∀ r : Nat, ∀ c ∈ encCells (rankCells bd r) 0, c ≠ '/' :=
    fun r c hc => (encCells_chars _ 0 (by simp [rankCells_length]) c hc).2
  rw [slashSplit_row _ (hrw 0), slashSplit_row _ (hrw 1), slashSplit_row _ (hrw 2),
    slashSplit_row _ (hrw 3), slashSplit_row _ (hrw 4), slashSplit_row _ (hrw 5),
    slashSplit_row _ (hrw 6), slashSplit_lastrow _ (hrw 7)]
  simp

theorem wsSplit_six (P T C EP H F : List Char)
    (hP : ∀ c ∈ P, isWs c = false) (hPne : P ≠ [])
    (hT : ∀ c ∈ T, isWs c = false) (hTne : T ≠ [])
    (hC : ∀ c ∈ C, isWs c = false) (hCne : C ≠ [])
    (hEP : ∀ c ∈ EP, isWs c = false) (hEPne : EP ≠ [])
    (hH : ∀ c ∈ H, isWs c = false) (hHne : H ≠ [])
    (hF : ∀ c ∈ F, isWs c = false) (hFne : F ≠ []) :
    wsSplit (P ++ [' '] ++ T ++ [' '] ++ C ++ [' '] ++ EP ++ [' '] ++ H ++ [' '] ++ F)
      [] = [P, T, C, EP, H, F] := by
  have hFsplit : wsSplit F [] = [F] := by
    have h := wsSplit_field F hF [] []
    simp only [List.append_nil] at h
    rw [h, wsSplit_last _ (by simp [hFne])]
    simp
  simp only [List.append_assoc, List.singleton_append, List.cons_append, List.nil_append]
  rw [wsSplit_field P hP, wsSplit_break _ (P.reverse ++ []) (by simp [hPne]),
    wsSplit_field T hT, wsSplit_break _ (T.reverse ++ []) (by simp [hTne]),
    wsSplit_field C hC, wsSplit_break _ (C.reverse ++ []) (by simp [hCne]),
    wsSplit_field EP hEP, wsSplit_break _ (EP.reverse ++ []) (by simp [hEPne]),
    wsSplit_field H hH, wsSplit_break _ (H.reverse ++ []) (by simp [hHne]),
    hFsplit]
  simp

theorem dropWhile_append_of (p : Char → Bool) (a rest : List Char)
    (ha : ∀ c ∈ a, p c = false) (hne : a ≠ []) :
    (a ++ rest).dropWhile p = a ++ rest := by
  rcases a with _ | ⟨c, a2⟩
  · exact absurd rfl hne
  · rw [List.cons_append, List.dropWhile_cons, if_neg (by simp [ha c (by simp)])]

theorem kingsChain_w (b0 : List (Option Piece))
    (hw : ∃ i, i < 64 ∧ boardGet b0 i = some ⟨Color.w, PKind.k⟩) :
    (kingsUpd 7 (rankCells b0 7) 0 (kingsUpd 6 (rankCells b0 6) 0
      (kingsUpd 5 (rankCells b0 5) 0 (kingsUpd 4 (rankCells b0 4) 0
        (kingsUpd 3 (rankCells b0 3) 0 (kingsUpd 2 (rankCells b0 2) 0
          (kingsUpd 1 (rankCells b0 1) 0
            (kingsUpd 0 (rankCells b0 0) 0 (none, none))))))))).1.isSome = true := by
  obtain ⟨i, hi, hbw⟩ := hw
  obtain ⟨r0, hr0, hmem⟩ :
      ∃ r0, r0 ≤ 7 ∧ (some (⟨Color.w, PKind.k⟩ : Piece)) ∈ rankCells b0 r0 := by
    refine ⟨i / 8, by omega, ?_⟩
    unfold rankCells
    refine List.mem_map.mpr ⟨i % 8, List.mem_range.mpr (by omega), ?_⟩
    rw [show i / 8 * 8 + i % 8 = i from by omega]
    exact hbw
  interval_cases r0
  · exact (kingsUpd_mono 7 _ 0 _).1 ((kingsUpd_mono 6 _ 0 _).1 ((kingsUpd_mono 5 _ 0 _).1
      ((kingsUpd_mono 4 _ 0 _).1 ((kingsUpd_mono 3 _ 0 _).1 ((kingsUpd_mono 2 _ 0 _).1
        ((kingsUpd_mono 1 _ 0 _).1 (kingsUpd_found_w 0 _ 0 _ hmem)))))))
  · exact (kingsUpd_mono 7 _ 0 _).1 ((kingsUpd_mono 6 _ 0 _).1 ((kingsUpd_mono 5 _ 0 _).1
      ((kingsUpd_mono 4 _ 0 _).1 ((kingsUpd_mono 3 _ 0 _).1 ((kingsUpd_mono 2 _ 0 _).1
        (kingsUpd_found_w 1 _ 0 _ hmem))))))
  · exact (kingsUpd_mono 7 _ 0 _).1 ((kingsUpd_mono 6 _ 0 _).1 ((kingsUpd_mono 5 _ 0 _).1
      ((kingsUpd_mono 4 _ 0 _).1 ((kingsUpd_mono 3 _ 0 _).1
        (kingsUpd_found_w 2 _ 0 _ hmem)))))
  · exact (kingsUpd_mono 7 _ 0 _).1 ((kingsUpd_mono 6 _ 0 _).1 ((kingsUpd_mono 5 _ 0 _).1
      ((kingsUpd_mono 4 _ 0 _).1 (kingsUpd_found_w 3 _ 0 _ hmem))))
  · exact (kingsUpd_mono 7 _ 0 _).1 ((kingsUpd_mono 6 _ 0 _).1 ((kingsUpd_mono 5 _ 0 _).1
      (kingsUpd_found_w 4 _ 0 _ hmem)))
  · exact (kingsUpd_mono 7 _ 0 _).1 ((kingsUpd_mono 6 _ 0 _).1
      (kingsUpd_found_w 5 _ 0 _ hmem))
  · exact (kingsUpd_mono 7 _ 0 _).1 (kingsUpd_found_w 6 _ 0 _ hmem)
  · exact kingsUpd_found_w 7 _ 0 _ hmem

theorem kingsChain_b (b0 : List (Option Piece))
    (hb : ∃ i, i < 64 ∧ boardGet b0 i = some ⟨Color.b, PKind.k⟩) :
    (kingsUpd 7 (rankCells b0 7) 0 (kingsUpd 6 (rankCells b0 6) 0
      (kingsUpd 5 (rankCells b0 5) 0 (kingsUpd 4 (rankCells b0 4) 0
        (kingsUpd 3 (rankCells b0 3) 0 (kingsUpd 2 (rankCells b0 2) 0
          (kingsUpd 1 (rankCells b0 1) 0
            (kingsUpd 0 (rankCells b0 0) 0 (none, none))))))))).2.isSome = true := by
  obtain ⟨i, hi, hbw⟩ := hb
  obtain ⟨r0, hr0, hmem⟩ :
      ∃ r0, r0 ≤ 7 ∧ (some (⟨Color.b, PKind.k⟩ : Piece)) ∈ rankCells b0 r0 := by
    refine ⟨i / 8, by omega, ?_⟩
    unfold rankCells
    refine List.mem_map.mpr ⟨i % 8, List.mem_range.mpr (by omega), ?_⟩
    rw [show i / 8 * 8 + i % 8 = i from by omega]
    exact hbw
  interval_cases r0
  · exact (kingsUpd_mono 7 _ 0 _).2 ((kingsUpd_mono 6 _ 0 _).2 ((kingsUpd_mono 5 _ 0 _).2
      ((kingsUpd_mono 4 _ 0 _).2 ((kingsUpd_mono 3 _ 0 _).2 ((kingsUpd_mono 2 _ 0 _).2
        ((kingsUpd_mono 1 _ 0 _).2 (kingsUpd_found_b 0 _ 0 _ hmem)))))))
  · exact (kingsUpd_mono 7 _ 0 _).2 ((kingsUpd_mono 6 _ 0 _).2 ((kingsUpd_mono 5 _ 0 _).2
      ((kingsUpd_mono 4 _ 0 _).2 ((kingsUpd_mono 3 _ 0 _).2 ((kingsUpd_mono 2 _ 0 _).2
        (kingsUpd_found_b 1 _ 0 _ hmem))))))
  · exact (kingsUpd_mono 7 _ 0 _).2 ((kingsUpd_mono 6 _ 0 _).2 ((kingsUpd_mono 5 _ 0 _).2
      ((kingsUpd_mono 4 _ 0 _).2 ((kingsUpd_mono 3 _ 0 _).2
        (kingsUpd_found_b 2 _ 0 _ hmem)))))
  · exact (kingsUpd_mono 7 _ 0 _).2 ((kingsUpd_mono 6 _ 0 _).2 ((kingsUpd_mono 5 _ 0 _).2
      ((kingsUpd_mono 4 _ 0 _).2 (kingsUpd_found_b 3 _ 0 _ hmem))))
  · exact (kingsUpd_mono 7 _ 0 _).2 ((kingsUpd_mono 6 _ 0 _).2 ((kingsUpd_mono 5 _ 0 _).2
      (kingsUpd_found_b 4 _ 0 _ hmem)))
  · exact (kingsUpd_mono 7 _ 0 _).2 ((kingsUpd_mono 6 _ 0 _).2
      (kingsUpd_found_b 5 _ 0 _ hmem))
  · exact (kingsUpd_mono 7 _ 0 _).2 (kingsUpd_found_b 6 _ 0 _ hmem)
  · exact kingsUpd_found_b 7 _ 0 _ hmem

theorem parseRows_step2 (bd : List (Option Piece)) (e : Engine) (r : Nat)
    (rest : List (List Char)) (ks : Option Nat × Option Nat) :
    parseRows e (encCells (rankCells bd r) 0 :: rest) r ks.1 ks.2 =
      parseRows (placeCells r e (rankCells bd r) 0) rest (r + 1)
        (kingsUpd r (rankCells bd r) 0 ks).1
        (kingsUpd r (rankCells bd r) 0 ks).2 := by
  rw [parseRows_step bd e r rest ks.1 ks.2, Prod.mk.eta]

theorem loadFEN_roundtrip (e e0 : Engine) (hbok : boardOK e = true)
    (hwf : fenWF e = true) :
    ∃ e2, loadFEN e0 (toFEN e) = Except.ok e2 ∧ e2.board = e.board ∧
      e2.turn = e.turn ∧ e2.castling = e.castling ∧ e2.ep = e.ep ∧
      e2.halfmove = e.halfmove ∧ e2.fullmove = e.fullmove := by
  have hlen : e.board.length = 64 := by
    have h := hbok
    unfold boardOK at h
    simpa using h
  have hwf2 := hwf
  unfold fenWF at hwf2
  simp only [Bool.and_eq_true, decide_eq_true_eq, List.mem_range] at hwf2
  obtain ⟨⟨⟨hwK, hbK⟩, hepB⟩, hfm⟩ := hwf2
  have hrowws : ∀ r : Nat, ∀ c ∈ encCells (rankCells e.board r) 0,
      isWs c = false ∧ c ≠ '/' :=
    fun r => encCells_chars _ 0 (by simp [rankCells_length])
  have hrowne : ∀ r : Nat, encCells (rankCells e.board r) 0 ≠ [] :=
    fun r => encCells_ne_nil _ 0 (by simp [rankCells_length])
  have hPws : ∀ c ∈ encCells (rankCells e.board 0) 0 ++ '/' ::
      (encCells (rankCells e.board 1) 0 ++ '/' ::
        (encCells (rankCells e.board 2) 0 ++ '/' ::
          (encCells (rankCells e.board 3) 0 ++ '/' ::
            (encCells (rankCells e.board 4) 0 ++ '/' ::
              (encCells (rankCells e.board 5) 0 ++ '/' ::
                (encCells (rankCells e.board 6) 0 ++ '/' ::
                  encCells (rankCells e.board 7) 0)))))), isWs c = false :=
    ws_of_join _ _ (hrowws 0)
      (ws_of_join _ _ (hrowws 1)
        (ws_of_join _ _ (hrowws 2)
          (ws_of_join _ _ (hrowws 3)
            (ws_of_join _ _ (hrowws 4)
              (ws_of_join _ _ (hrowws 5)
                (ws_of_join _ _ (hrowws 6) (fun c hc => (hrowws 7 c hc).1)))))))
  have hPne : encCells (rankCells e.board 0) 0 ++ '/' ::
      (encCells (rankCells e.board 1) 0 ++ '/' ::
        (encCells (rankCells e.board 2) 0 ++ '/' ::
          (encCells (rankCells e.board 3) 0 ++ '/' ::
            (encCells (rankCells e.board 4) 0 ++ '/' ::
              (encCells (rankCells e.board 5) 0 ++ '/' ::
                (encCells (rankCells e.board 6) 0 ++ '/' ::
                  encCells (rankCells e.board 7) 0)))))) ≠ [] := by simp
  have hTCws : ∀ c ∈ [(if e.turn = Color.w then 'w' else 'b')], isWs c = false := by
    intro c hc
    rcases List.mem_singleton.mp hc
    rcases e.turn <;> simp <;> decide
  have hCSfacts : (∀ c ∈ (if ((if e.castling.K then ['K'] else []) ++
      (if e.castling.Q then ['Q'] else []) ++ (if e.castling.k then ['k'] else []) ++
      (if e.castling.q then ['q'] else [])) = [] then (['-'] : List Char)
      else (if e.castling.K then ['K'] else []) ++ (if e.castling.Q then ['Q'] else []) ++
        (if e.castling.k then ['k'] else []) ++ (if e.castling.q then ['q'] else [])),
      isWs c = false) ∧ (if ((if e.castling.K then ['K'] else []) ++
      (if e.castling.Q then ['Q'] else []) ++ (if e.castling.k then ['k'] else []) ++
      (if e.castling.q then ['q'] else [])) = [] then (['-'] : List Char)
      else (if e.castling.K then ['K'] else []) ++ (if e.castling.Q then ['Q'] else []) ++
        (if e.castling.k then ['k'] else []) ++ (if e.castling.q then ['q'] else [])) ≠
      [] := by
    rcases hcst : e.castling with ⟨K, Q, k2, q2⟩
    rcases K <;> rcases Q <;> rcases k2 <;> rcases q2 <;> exact ⟨by decide, by decide⟩
  have hEPfacts : (∀ c ∈ (match e.ep with
      | none => (['-'] : List Char)
      | some sq => indexToSquareChars sq), isWs c = false) ∧
      (match e.ep with
      | none => (['-'] : List Char)
      | some sq => indexToSquareChars sq) ≠ [] := by
    rcases hep : e.ep with _ | sq
    · exact ⟨by decide, by decide⟩
    · rw [hep] at hepB
      simp only [decide_eq_true_eq] at hepB
      constructor
      · intro c hc
        unfold indexToSquareChars at hc
        rcases List.mem_cons.mp hc with rfl | hc2
        · exact (FILES_getD_facts _ (fileOf_le7 sq)).1
        · rcases List.mem_cons.mp hc2 with rfl | hc3
          · exact (RANKS_getD_facts _ (rankOf_le7 sq hepB)).1
          · simp at hc3
      · unfold indexToSquareChars
        simp
  have hHws : ∀ c ∈ natToChars e.halfmove, isWs c = false := by
    intro c hc
    obtain ⟨d, hd, rfl⟩ := natToChars_mem _ c hc
    exact (natDigitChar_le9_facts d hd).1
  have hFws : ∀ c ∈ natToChars e.fullmove, isWs c = false := by
    intro c hc
    obtain ⟨d, hd, rfl⟩ := natToChars_mem _ c hc
    exact (natDigitChar_le9_facts d hd).1
  have hB : toFENChars e =
      (encCells (rankCells e.board 0) 0 ++ '/' ::
        (encCells (rankCells e.board 1) 0 ++ '/' ::
          (encCells (rankCells e.board 2) 0 ++ '/' ::
            (encCells (rankCells e.board 3) 0 ++ '/' ::
              (encCells (rankCells e.board 4) 0 ++ '/' ::
                (encCells (rankCells e.board 5) 0 ++ '/' ::
                  (encCells (rankCells e.board 6) 0 ++ '/' ::
                    encCells (rankCells e.board 7) 0))))))) ++ [' '] ++
      [(if e.turn = Color.w then 'w' else 'b')] ++ [' '] ++
      (if ((if e.castling.K then ['K'] else []) ++ (if e.castling.Q then ['Q'] else []) ++
        (if e.castling.k then ['k'] else []) ++ (if e.castling.q then ['q'] else [])) = []
        then (['-'] : List Char)
        else (if e.castling.K then ['K'] else []) ++ (if e.castling.Q then ['Q'] else []) ++
          (if e.castling.k then ['k'] else []) ++ (if e.castling.q then ['q'] else [])) ++
      [' '] ++
      (match e.ep with
        | none => (['-'] : List Char)
        | some sq => indexToSquareChars sq) ++ [' '] ++
      natToChars e.halfmove ++ [' '] ++ natToChars e.fullmove := by
    unfold toFENChars
    dsimp only
    rw [placement_eq]
  have htrim : trimChars (toFENChars e) = toFENChars e := by
    have h1 : (toFENChars e).dropWhile isWs = toFENChars e := by
      rw [hB]
      simp only [List.append_assoc]
      exact dropWhile_append_of isWs _ _ (fun c hc => (hrowws 0 c hc).1) (hrowne 0)
    have h2 : (toFENChars e).reverse.dropWhile isWs = (toFENChars e).reverse := by
      rw [hB, List.reverse_append]
      exact dropWhile_append_of isWs _ _ (fun c hc => hFws c (by simpa using hc))
        (by simp [natToChars_ne_nil])
    unfold trimChars
    rw [h1, h2, List.reverse_reverse]
  have hsplit : wsSplit (toFENChars e) [] =
      [(encCells (rankCells e.board 0) 0 ++ '/' ::
        (encCells (rankCells e.board 1) 0 ++ '/' ::
          (encCells (rankCells e.board 2) 0 ++ '/' ::
            (encCells (rankCells e.board 3) 0 ++ '/' ::
              (encCells (rankCells e.board 4) 0 ++ '/' ::
                (encCells (rankCells e.board 5) 0 ++ '/' ::
                  (encCells (rankCells e.board 6) 0 ++ '/' ::
                    encCells (rankCells e.board 7) 0))))))),
       [(if e.turn = Color.w then 'w' else 'b')],
       (if ((if e.castling.K then ['K'] else []) ++ (if e.castling.Q then ['Q'] else []) ++
        (if e.castling.k then ['k'] else []) ++ (if e.castling.q then ['q'] else [])) = []
        then (['-'] : List Char)
        else (if e.castling.K then ['K'] else []) ++ (if e.castling.Q then ['Q'] else []) ++
          (if e.castling.k then ['k'] else []) ++ (if e.castling.q then ['q'] else [])),
       (match e.ep with
        | none => (['-'] : List Char)
        | some sq => indexToSquareChars sq),
       natToChars e.halfmove, natToChars e.fullmove] := by
    rw [hB]
    exact wsSplit_six _ _ _ _ _ _ hPws hPne hTCws (by simp) hCSfacts.1 hCSfacts.2
      hEPfacts.1 hEPfacts.2 hHws (natToChars_ne_nil _) hFws (natToChars_ne_nil _)
  have i0 : ∀ j, boardGet ({ e0 with board := List.replicate 64 (none : Option Piece) } :
      Engine).board j = if j < 8 * 0 then boardGet e.board j else none := by
    intro j
    show boardGet (List.replicate 64 none) j = _
    rw [boardGet_replicate]
    simp
  have i1 := placeRank_invariant e.board 0 _ (by omega)
    (by show (List.replicate 64 (none : Option Piece)).length = 64; simp) i0
  have i2 := placeRank_invariant e.board 1 _ (by omega) i1.1 (by simpa using i1.2)
  have i3 := placeRank_invariant e.board 2 _ (by omega) i2.1 (by simpa using i2.2)
  have i4 := placeRank_invariant e.board 3 _ (by omega) i3.1 (by simpa using i3.2)
  have i5 := placeRank_invariant e.board 4 _ (by omega) i4.1 (by simpa using i4.2)
  have i6 := placeRank_invariant e.board 5 _ (by omega) i5.1 (by simpa using i5.2)
  have i7 := placeRank_invariant e.board 6 _ (by omega) i6.1 (by simpa using i6.2)
  have i8 := placeRank_invariant e.board 7 _ (by omega) i7.1 (by simpa using i7.2)
  have hE8board := board_ext _ e.board i8.1 hlen
    (fun j hj => by have h := i8.2 j; rwa [if_pos (by omega)] at h)
  obtain ⟨wk, hwk⟩ := Option.isSome_iff_exists.mp (kingsChain_w e.board hwK)
  obtain ⟨bk, hbk⟩ := Option.isSome_iff_exists.mp (kingsChain_b e.board hbK)
  unfold loadFEN
  rw [show (toFEN e).data = toFENChars e from rfl, htrim, hsplit]
  dsimp only
  rw [if_neg (by simp)]
  simp only [List.getD_cons_zero, List.getD_cons_succ]
  rw [slashSplit_placement]
  rw [if_neg (by simp)]
  rw [parseRows_step e.board _ 0, parseRows_step2 e.board _ 1, parseRows_step2 e.board _ 2,
    parseRows_step2 e.board _ 3, parseRows_step2 e.board _ 4, parseRows_step2 e.board _ 5,
    parseRows_step2 e.board _ 6, parseRows_step2 e.board _ 7]
  rw [parseRows]
  dsimp only
  rw [hwk, hbk]
  dsimp only
  rcases hturn : e.turn with _ | _
  · simp only [↓reduceIte]
    rw [parseCastling_roundtrip e.castling _ rfl]
    try dsimp only
    rcases hepc : e.ep with _ | sq
    · try simp only [↓reduceIte]
      try dsimp only
      simp only [List.get?]
      rw [charsToNat?_natToChars, charsToNat?_natToChars]
      try dsimp only
      rw [if_neg (show ¬ e.fullmove < 1 from by omega)]
      exact ⟨_, rfl, hE8board, rfl, rfl, rfl, rfl, rfl⟩
    · have hsq : sq < 64 := by rw [hepc] at hepB; simpa using hepB
      have hrt := squareToIndex_indexToSquare sq hsq
      rw [if_neg (show ¬ indexToSquareChars sq = ['-'] from fun h => by
        rw [h] at hrt; exact Option.noConfusion hrt)]
      rw [hrt]
      try dsimp only
      simp only [List.get?]
      rw [charsToNat?_natToChars, charsToNat?_natToChars]
      try dsimp only
      rw [if_neg (show ¬ e.fullmove < 1 from by omega)]
      exact ⟨_, rfl, hE8board, rfl, rfl, rfl, rfl, rfl⟩
  · simp only [reduceCtorEq, if_true, if_false, ite_true, ite_false, eq_self_iff_true,
      or_true, true_or]
    rw [parseCastling_roundtrip e.castling _ rfl]
    try dsimp only
    rcases hepc : e.ep with _ | sq
    · try simp only [↓reduceIte]
      try dsimp only
      simp only [List.get?]
      rw [charsToNat?_natToChars, charsToNat?_natToChars]
      try dsimp only
      rw [if_neg (show ¬ e.fullmove < 1 from by omega)]
      exact ⟨_, rfl, hE8board, rfl, rfl, rfl, rfl, rfl⟩
    · have hsq : sq < 64 := by rw [hepc] at hepB; simpa using hepB
      have hrt := squareToIndex_indexToSquare sq hsq
      rw [if_neg (show ¬ indexToSquareChars sq = ['-'] from fun h => by
        rw [h] at hrt; exact Option.noConfusion hrt)]
      rw [hrt]
      try dsimp only
      simp only [List.get?]
      rw [charsToNat?_natToChars, charsToNat?_natToChars]
      try dsimp only
      rw [if_neg (show ¬ e.fullmove < 1 from by omega)]
      exact ⟨_, rfl, hE8board, rfl, rfl, rfl, rfl, rfl⟩
/-- C6: FEN round-trip — for every position with a 64-cell board, both kings on
the board, a real en passant square (if any) and fullmove at least 1 (true of
every reachable position), `toFEN` followed by `loadFEN` of that string on any
engine succeeds and a second `toFEN` produces a string identical to the first
export. -/
theorem C6_fen_round_trip (e e0 : Engine) (hbok : boardOK e = true)
    (hwf : fenWF e = true) :
    ∃ e2, loadFEN e0 (toFEN e) = Except.ok e2 ∧ toFEN e2 = toFEN e := by
  obtain ⟨e2, hok, hb, ht, hc, hp, hh, hf⟩ := loadFEN_roundtrip e e0 hbok hwf
  exact ⟨e2, hok, toFEN_congr e2 e hb ht hc hp hh hf⟩

theorem C6_fen_round_trip_witness :
    boardOK startEngine = true ∧ fenWF startEngine = true ∧
    ∃ e2, loadFEN blankEngine (toFEN startEngine) = Except.ok e2 ∧
      toFEN e2 = toFEN startEngine :=
  ⟨by decide, by decide,
    C6_fen_round_trip startEngine blankEngine (by decide) (by decide)⟩
theorem rootLoop_move_mem (ctx : SearchCtx) (depth : Nat) :
    ∀ (moves : List Move) (e : Engine) (lbM : Move) (lbS : Int) (k : Nat),
    (rootLoop ctx depth e moves lbM lbS k).2.1 = lbM ∨
      (rootLoop ctx depth e moves lbM lbS k).2.1 ∈ moves := by
  intro moves
  induction moves with
  | nil => intro e lbM lbS k; exact Or.inl rfl
  | cons m rest ih =>
    intro e lbM lbS k
    rw [rootLoop]
    dsimp only
    split
    · exact Or.inl rfl
    · split
      · rcases ih (unmakeMove (negamaxE ctx depth (makeMove e m false).1 (-INF) INF k).2.1
            (makeMove e m false).2 false) m
            (-(negamaxE ctx depth (makeMove e m false).1 (-INF) INF k).1.score)
            (negamaxE ctx depth (makeMove e m false).1 (-INF) INF k).2.2 with h | h
        · exact Or.inr (by rw [h]; exact List.mem_cons_self _ _)
        · exact Or.inr (List.mem_cons_of_mem _ h)
      · rcases ih (unmakeMove (negamaxE ctx depth (makeMove e m false).1 (-INF) INF k).2.1
            (makeMove e m false).2 false) lbM lbS
            (negamaxE ctx depth (makeMove e m false).1 (-INF) INF k).2.2 with h | h
        · exact Or.inl h
        · exact Or.inr (List.mem_cons_of_mem _ h)

theorem idLoop_mem (ctx : SearchCtx) (legal : List Move) :
    ∀ (n : Nat) (e : Engine) (bm : Move) (bs : Int) (k : Nat), bm ∈ legal →
    idLoop ctx legal n e bm bs k ∈ legal := by
  intro n
  induction n with
  | zero => intro e bm bs k hbm; exact hbm
  | succ n2 ih =>
    intro e bm bs k hbm
    rw [idLoop]
    dsimp only
    split
    · exact hbm
    · have hbm2 : (if (rootLoop ctx (ctx.maxDepth - (n2 + 1)) e (orderMoves legal) bm
          (-INF) (k + 1)).2.2.1 > bs then
          (rootLoop ctx (ctx.maxDepth - (n2 + 1)) e (orderMoves legal) bm
            (-INF) (k + 1)).2.1 else bm) ∈ legal := by
        split
        · rcases rootLoop_move_mem ctx (ctx.maxDepth - (n2 + 1)) (orderMoves legal) e bm
            (-INF) (k + 1) with h | h
          · rw [h]; exact hbm
          · unfold orderMoves at h
            exact (List.mem_insertionSort _).mp h
        · exact hbm
      split
      · exact hbm2
      · exact ih _ _ _ _ hbm2

/-- C7 (amended): `findBestMove` returns `none` exactly when the side to move
has no legal moves, and whenever legal moves exist it returns one of them —
for every difficulty, every random pick and every pattern of time-check
outcomes.  (The further clause that a time overrun degrades to the best
COMPLETED depth\'s move is false of the source: an aborted iteration\'s
partial best can be committed — see the counterexample.) -/
theorem C7_find_best_move (e : Engine) (d : Difficulty) (randIdx : Nat)
    (timeUp : Nat → Bool) :
    (findBestMove e d randIdx timeUp = none ↔ generateLegalMoves e e.turn = []) ∧
    (∀ m, findBestMove e d randIdx timeUp = some m →
      m ∈ generateLegalMoves e e.turn) := by
  unfold findBestMove generateLegalMoves
  dsimp only
  rcases hlg : (generateLegalMovesE e e.turn).1 with _ | ⟨m0, rest⟩
  · simp
  · dsimp only
    constructor
    · by_cases hd : d = Difficulty.easy <;> simp [hd]
    · intro m hm
      by_cases hd : d = Difficulty.easy
    
      · rw [if_pos hd] at hm
        rw [Option.some.injEq] at hm
        subst hm
        by_cases hc : ((m0 :: rest).filter fun m => m.captured.isSome || m.isEnPassant).length ≠ 0
        · rw [if_pos hc]
          have hlt : randIdx %
              ((m0 :: rest).filter fun m => m.captured.isSome || m.isEnPassant).length <
              ((m0 :: rest).filter fun m => m.captured.isSome || m.isEnPassant).length :=
            Nat.mod_lt _ (by omega)
          rw [List.getD_eq_getElem _ _ hlt]
          exact List.mem_of_mem_filter (List.getElem_mem hlt)
        · rw [if_neg hc]
          have hlt : randIdx % (m0 :: rest).length < (m0 :: rest).length :=
            Nat.mod_lt _ (by simp)
          rw [List.getD_eq_getElem _ _ hlt]
          exact List.getElem_mem hlt
      · rw [if_neg hd] at hm
        rw [Option.some.injEq] at hm
        subst hm
        exact idLoop_mem _ _ _ _ _ _ _ (List.mem_cons_self _ _)

/-- C7 counterexample: in the position `searchBugEngine` with the time limit
first exceeded at the third time check, `findBestMove` (medium difficulty)
returns the partial best of the iteration that was aborted mid-way, not the
move of the best completed depth: it differs from the spec-described degrade
policy `findBestMoveSpec`, which discards the aborted iteration. -/
theorem C7_partial_depth_counterexample :
    findBestMove searchBugEngine Difficulty.medium 0 (fun k => decide (2 ≤ k)) ≠
      findBestMoveSpec searchBugEngine Difficulty.medium 0 (fun k => decide (2 ≤ k)) := by
  decide
end Chess
